import Mathlib

/-! tink: multi-source BTC/USD price aggregation (`server.go`).

A shallow embedding of `server.go`: the validation rule `validatePrice`, the
twelve provider adapters `fetch*Price`, and the scheduler cycle of `main`
(accumulate the successful prices, divide by their count, publish).

The program computes with Go `float64`.  The embedding carries an executable
model of the binary64 values and of the operations the program uses on them
(`<=`, `+`, `/`, and the conversion `float64(count)`), with IEEE 754
round-to-nearest-even, and a model of `strconv.ParseFloat(s, 64)` from the Go
standard library, which the string-priced adapters call.
-/

namespace Tink

/-! ## Go `float64` -/

/-- A Go `float64` value.  `fin neg ex frac` is the finite value with sign bit
`neg`, biased exponent field `ex` (0 for zero and subnormals, at most 2046) and
52-bit fraction field `frac`.  All NaN bit patterns are one value `nan`. -/
inductive F64 where
  | nan : F64
  | inf (neg : Bool) : F64
  | fin (neg : Bool) (ex : Fin 2047) (frac : Fin 4503599627370496) : F64
  deriving DecidableEq, Repr

namespace F64

/-- The magnitude of a finite value in units of `2^-1074` (the smallest
subnormal): every finite binary64 is an integer number of such units. -/
def units (ex : Fin 2047) (frac : Fin 4503599627370496) : Nat :=
  if ex.val = 0 then frac.val else (4503599627370496 + frac.val) * 2 ^ (ex.val - 1)

/-- The signed number of `2^-1074` units of a finite value. -/
def sunits (neg : Bool) (ex : Fin 2047) (frac : Fin 4503599627370496) : Int :=
  if neg then -(units ex frac : Int) else (units ex frac : Int)

/-- The constant `0.0` (positive zero), also the zero value of a `float64` variable. -/
def zero : F64 := fin false 0 0

/-- Round-to-nearest, ties-to-even, of the quotient `a / b` to an integer (`b > 0`). -/
def rne (a b : Nat) : Nat :=
  if 2 * (a % b) < b then a / b
  else if b < 2 * (a % b) then a / b + 1
  else if (a / b) % 2 = 0 then a / b else a / b + 1

/-- The loop of `bitLength`: `acc` plus the number of halvings that take `n` to 0,
at most `fuel` of them. -/
def bitLengthFrom (acc : Nat) : Nat → Nat → Nat
  | 0, _ => acc
  | fuel + 1, n => if n = 0 then acc else bitLengthFrom (acc + 1) fuel (n / 2)

/-- The number of binary digits of `n`, by at most `fuel` halvings; `fuel = n`
is always enough (`bitLength_bounds`). -/
def bitLength (fuel n : Nat) : Nat := bitLengthFrom 0 fuel n

/-- The binary64 with sign `neg` and magnitude `k * 2^e` units, for a rounded
significand `k ≤ 2^53`: subnormal when `k < 2^52`, carried into the next binade
when `k = 2^53`, infinite when the exponent field would pass 2046. -/
def encode (neg : Bool) (k e : Nat) : F64 :=
  if h : k < 4503599627370496 then fin neg 0 ⟨k, h⟩
  else if h53 : k < 9007199254740992 then
    if he : e + 1 < 2047 then fin neg ⟨e + 1, he⟩ ⟨k - 4503599627370496, by omega⟩
    else inf neg
  else
    if he : e + 2 < 2047 then fin neg ⟨e + 2, he⟩ 0 else inf neg

/-- The binary64 nearest (ties to even) to the real number `n / d` units of
`2^-1074`, with sign `neg`; `d > 0`.  Below `2^53` units the spacing of the
binary64 values is one unit; at `2^L ≤ n/d < 2^(L+1)` with `L ≥ 53` it is
`2^(L-52)` units. -/
def round (neg : Bool) (n d : Nat) : F64 :=
  let e := bitLength (n / d) (n / d) - 53
  encode neg (rne n (d * 2 ^ e)) e

/-- Go `a <= b` on `float64`: false whenever an operand is NaN; `-0 <= +0`. -/
def le : F64 → F64 → Bool
  | nan, _ => false
  | _, nan => false
  | inf true, _ => true
  | _, inf false => true
  | inf false, _ => false
  | _, inf true => false
  | fin na ea fa, fin nb eb fb => decide (sunits na ea fa ≤ sunits nb eb fb)

/-- Go `a + b` on `float64` (IEEE 754 addition, round to nearest even). -/
def add : F64 → F64 → F64
  | nan, _ => nan
  | _, nan => nan
  | inf na, inf nb => if na = nb then inf na else nan
  | inf na, fin _ _ _ => inf na
  | fin _ _ _, inf nb => inf nb
  | fin na ea fa, fin nb eb fb =>
    let s := sunits na ea fa + sunits nb eb fb
    if s = 0 then fin (na && nb) 0 0
    else round (decide (s < 0)) s.natAbs 1

/-- Go `a / b` on `float64` (IEEE 754 division, round to nearest even; a
division by zero gives an infinity or NaN, it does not panic). -/
def div : F64 → F64 → F64
  | nan, _ => nan
  | _, nan => nan
  | inf _, inf _ => nan
  | inf na, fin nb _ _ => inf (na != nb)
  | fin na _ _, inf nb => fin (na != nb) 0 0
  | fin na ea fa, fin nb eb fb =>
    if units eb fb = 0 then
      if units ea fa = 0 then nan else inf (na != nb)
    else round (na != nb) (units ea fa * 2 ^ 1074) (units eb fb)

/-- Go `float64(n)` for a non-negative integer `n`. -/
def ofNat (n : Nat) : F64 := round false (n * 2 ^ 1074) 1

instance : Add F64 := ⟨add⟩
instance : Div F64 := ⟨div⟩

/-- The value is finite. -/
def isFinite : F64 → Bool
  | fin _ _ _ => true
  | _ => false

end F64

/-! ## `strconv.ParseFloat(s, 64)` (Go standard library)

The string-priced adapters call `strconv.ParseFloat`.  It is not part of the
repository; it is modelled here from its documented behaviour and the parser
`readFloat`: an optionally signed `inf` / `infinity` or an unsigned `nan` (in
any letter case), or a decimal or hexadecimal floating-point literal with
optional digit-separating underscores, converted to the nearest binary64
(ties to even).  A value too large for binary64 gives the infinity together
with `ErrRange`; a string that is not wholly such a literal gives `ErrSyntax`. -/

/-- The `Err` field of a `*strconv.NumError`. -/
inductive NumError where
  | ErrSyntax : NumError
  | ErrRange : NumError
  deriving DecidableEq, Repr

namespace strconv

/-- Go `lower(c)`: `c | ('x' ^ 'X')`, as a character code. -/
def lower (c : Char) : Nat := c.toNat ||| 32

/-- The length of the common initial part of `s` and the lower-case `pre`,
upper-case ASCII letters of `s` counting as their lower-case ones. -/
def commonPrefixLenIgnoreCase : List Char → List Char → Nat
  | c :: s, p :: pre =>
    let c1 := if 65 ≤ c.toNat ∧ c.toNat ≤ 90 then c.toNat + 32 else c.toNat
    if c1 = p.toNat then commonPrefixLenIgnoreCase s pre + 1 else 0
  | _, _ => 0

/-- The `inf`/`infinity` case of `special`, after `nsign` sign characters. -/
def specialInf (neg : Bool) (nsign : Nat) (s : List Char) : Option (F64 × Nat) :=
  let n := commonPrefixLenIgnoreCase s "infinity".toList
  let n := if 3 < n ∧ n < 8 then 3 else n
  if n = 3 ∨ n = 8 then some (F64.inf neg, nsign + n) else none

/-- Go `special`: the special value a string starts with and the number of
characters it takes, if any. -/
def special : List Char → Option (F64 × Nat)
  | [] => none
  | c :: s =>
    if c = '+' then specialInf false 1 s
    else if c = '-' then specialInf true 1 s
    else if c = 'i' ∨ c = 'I' then specialInf false 0 (c :: s)
    else if c = 'n' ∨ c = 'N' then
      if commonPrefixLenIgnoreCase (c :: s) "nan".toList = 3 then some (F64.nan, 3) else none
    else none

/-- The state of the digit loop of `readFloat`.  `mant` holds all `nd`
significant digits read (Go keeps the first 19, or 16 hexadecimal ones, and a
truncation flag, and re-reads the rest when they matter for rounding). -/
structure Digits where
  mant : Nat
  nd : Nat
  dp : Int
  sawdot : Bool
  sawdigits : Bool
  underscores : Bool
  deriving DecidableEq, Repr

/-- The digit loop of `readFloat`: the state at the first character that is
not part of the mantissa, and the unread rest. -/
def readDigits (hex : Bool) : List Char → Digits → Digits × List Char
  | [], st => (st, [])
  | c :: cs, st =>
    if c = '_' then readDigits hex cs { st with underscores := true }
    else if c = '.' then
      if st.sawdot then (st, c :: cs)
      else readDigits hex cs { st with sawdot := true, dp := st.nd }
    else if 48 ≤ c.toNat ∧ c.toNat ≤ 57 then
      if c = '0' ∧ st.nd = 0 then
        readDigits hex cs { st with sawdigits := true, dp := st.dp - 1 }
      else
        readDigits hex cs { st with
          sawdigits := true, nd := st.nd + 1,
          mant := st.mant * (if hex then 16 else 10) + (c.toNat - 48) }
    else if hex ∧ 97 ≤ lower c ∧ lower c ≤ 102 then
      readDigits hex cs { st with
        sawdigits := true, nd := st.nd + 1, mant := st.mant * 16 + (lower c - 97 + 10) }
    else (st, c :: cs)

/-- The digit loop of the exponent: the exponent read so far (it stops growing
once it has reached 10000), whether an underscore was seen, and the unread rest. -/
def readExpDigits : List Char → Nat → Bool → Nat × Bool × List Char
  | [], e, us => (e, us, [])
  | c :: cs, e, us =>
    if c = '_' then readExpDigits cs e true
    else if 48 ≤ c.toNat ∧ c.toNat ≤ 57 then
      readExpDigits cs (if e < 10000 then e * 10 + (c.toNat - 48) else e) us
    else (e, us, c :: cs)

/-- The loop of `underscoreOK`; `saw` is the kind of the last character:
`'0'` a digit, `'_'` an underscore, `'!'` another character, `'^'` none yet. -/
def underscoreLoop (hex : Bool) : List Char → Char → Bool
  | [], saw => saw != '_'
  | c :: cs, saw =>
    if (48 ≤ c.toNat ∧ c.toNat ≤ 57) ∨ (hex ∧ 97 ≤ lower c ∧ lower c ≤ 102) then
      underscoreLoop hex cs '0'
    else if c = '_' then
      if saw != '0' then false else underscoreLoop hex cs '_'
    else if saw = '_' then false
    else underscoreLoop hex cs '!'

/-- Go `underscoreOK`: underscores appear only between digits, or between a
base mark and a digit. -/
def underscoreOK (s : List Char) : Bool :=
  let s := match s with
    | c :: cs => if c = '-' ∨ c = '+' then cs else s
    | [] => s
  match s with
  | c0 :: c1 :: cs =>
    if c0 = '0' ∧ (lower c1 = 98 ∨ lower c1 = 111 ∨ lower c1 = 120) then
      underscoreLoop (lower c1 = 120) cs '0'
    else underscoreLoop false s '^'
  | _ => underscoreLoop false s '^'

/-- What `readFloat` returns when it accepts: the sign, the mantissa digits as
an integer, the base (`hex`: 16, else 10) and the power of the base (of 2 for
`hex`) that scales the mantissa, and the unread rest of the string. -/
structure Literal where
  neg : Bool
  mant : Nat
  exp : Int
  hex : Bool
  rest : List Char
  deriving DecidableEq, Repr

/-- Go `readFloat`: reads a decimal or hexadecimal mantissa and exponent from
the start of `s`; `none` when `s` does not start with a well-formed literal. -/
def readFloat (s : List Char) : Option Literal :=
  match s with
  | [] => none
  | c :: cs =>
    let neg := decide (c = '-')
    let s1 := if c = '+' ∨ c = '-' then cs else s
    let hex := match s1 with
      | c0 :: c1 :: _ :: _ => decide (c0 = '0' ∧ lower c1 = 120)
      | _ => false
    let s2 := if hex then s1.drop 2 else s1
    let (st, s3) := readDigits hex s2 ⟨0, 0, 0, false, false, false⟩
    if ¬ st.sawdigits then none
    else
      let dp : Int := if st.sawdot then st.dp else st.nd
      let dp : Int := if hex then dp * 4 else dp
      let ndMant : Int := if hex then (st.nd : Int) * 4 else st.nd
      let expChar : Nat := if hex then 112 else 101
      let tail : Option (Int × Bool × List Char) :=
        match s3 with
        | e :: s4 =>
          if lower e = expChar then
            match s4 with
            | [] => none
            | sg :: s5 =>
              let esign : Int := if sg = '-' then -1 else 1
              let s6 := if sg = '+' ∨ sg = '-' then s5 else s4
              match s6 with
              | [] => none
              | d :: _ =>
                if d.toNat < 48 ∨ 57 < d.toNat then none
                else
                  let (e, us, s7) := readExpDigits s6 0 st.underscores
                  some (dp + (e : Int) * esign, us, s7)
          else if hex then none
          else some (dp, st.underscores, s3)
        | [] => if hex then none else some (dp, st.underscores, s3)
      match tail with
      | none => none
      | some (dp, underscores, rest) =>
        if underscores ∧ ¬ underscoreOK (s.take (s.length - rest.length)) then none
        else some ⟨neg, st.mant, if st.mant = 0 then 0 else dp - ndMant, hex, rest⟩

/-- The binary64 nearest to `mant * base^exp` (base 2 for `hex`, else 10). -/
def convert (neg : Bool) (mant : Nat) (exp : Int) (hex : Bool) : F64 :=
  if hex then
    if 0 ≤ exp + 1074 then F64.round neg (mant * 2 ^ (exp + 1074).toNat) 1
    else F64.round neg mant (2 ^ (-(exp + 1074)).toNat)
  else
    if 0 ≤ exp then F64.round neg (mant * 10 ^ exp.toNat * 2 ^ 1074) 1
    else F64.round neg (mant * 2 ^ 1074) (10 ^ (-exp).toNat)

/-- Go `strconv.ParseFloat(s, 64)`: the value and the error (`none` is `nil`). -/
def ParseFloat (s : String) : F64 × Option NumError :=
  match special s.toList with
  | some (val, n) =>
    if n ≠ s.toList.length then (F64.zero, some .ErrSyntax) else (val, none)
  | none =>
    match readFloat s.toList with
    | none => (F64.zero, some .ErrSyntax)
    | some lit =>
      if lit.rest ≠ [] then (F64.zero, some .ErrSyntax)
      else
        match convert lit.neg lit.mant lit.exp lit.hex with
        | F64.inf neg => (F64.inf neg, some .ErrRange)
        | f => (f, none)

end strconv

/-! ## Errors, panics and dynamic values -/

/-- A Go `interface{}` value as `validatePrice` sees it: a `float64`, or a value
of another dynamic type (or `nil`). -/
inductive Interface where
  | float64 (val : F64) : Interface
  | string (val : String) : Interface
  | int (val : Int) : Interface
  | nil : Interface
  deriving DecidableEq, Repr

/-- The errors of `server.go`, one constructor for each `fmt.Errorf` format
string, carrying the formatted arguments. -/
inductive Error where
  /-- `getPriceData`: "failed to create HTTP request (%q): %w". -/
  | createRequest (url : String) : Error
  /-- `getPriceData`: "failed to send HTTP request (%q): %w". -/
  | sendRequest (url : String) : Error
  /-- `getPriceData`: "failed to make HTTP request (%q): %d:". -/
  | statusCode (url : String) (code : Nat) : Error
  /-- `getPriceData`: "failed to decode JSON response (%q): %w". -/
  | decodeJSON (url : String) : Error
  /-- `validatePrice`: "invalid price value in (%s) response: %f". -/
  | invalidValue (name : String) (val : F64) : Error
  /-- `validatePrice`: "invalid type, price is not float64 in (%s) response: %v". -/
  | invalidType (name : String) (price : Interface) : Error
  /-- An adapter: "failed to make HTTP request (%s): %w". -/
  | request (name : String) (cause : Error) : Error
  /-- An adapter: "failed to access price field in response (%s)". -/
  | accessField (name : String) : Error
  /-- An adapter: "empty price field in response (%s)". -/
  | emptyField (name : String) : Error
  /-- An adapter: "failed to convert price from string to float: %w". -/
  | convert (name : String) (cause : NumError) : Error
  /-- An adapter: "invalid price value in response (%s): %f". -/
  | invalidPrice (name : String) (price : F64) : Error
  /-- The handler of `GET /`, from `c.JSON`: "json: unsupported value: NaN" (or
  `+Inf`, `-Inf`), the error of Go's JSON encoder on a `float64` that is not finite. -/
  | unsupportedValue (val : F64) : Error
  deriving DecidableEq, Repr

deriving instance DecidableEq for Except

/-- A Go run-time panic.  Nothing in `server.go` recovers from one, so a panic
in the scheduler goroutine ends the process. -/
inductive Panic where
  /-- "index out of range [index] with length len". -/
  | indexOutOfRange (index len : Nat) : Panic
  deriving DecidableEq, Repr

/-- What an adapter returns: Go's `(float64, error)`, `none` being `nil`. -/
abbrev Quote := F64 × Option Error

/-- What `getPriceData(url, &resp)` leaves an adapter with: the error it
returned, or `resp` as decoded from the JSON body. -/
abbrev Fetched (α : Type) := Except Error α

/-! ## `validatePrice` -/

/-- `validatePrice` (server.go 46-55). -/
def validatePrice (name : String) (price : Interface) : Option Error :=
  match price with
  | .float64 val =>
    if F64.le val F64.zero then some (.invalidValue name val)
    else none
  | _ => some (.invalidType name price)

/-! ## The twelve adapters

Each takes the outcome of its `getPriceData` call, the only thing it reads from
outside. -/

/-- `fetchBitfinexPrice` (server.go 58-79); `ApiResponse` is `[]float64`.
`resp[6]` panics when the slice has fewer than seven elements. -/
def fetchBitfinexPrice (got : Fetched (List F64)) : Except Panic Quote :=
  let name := "Bitfinex"
  match got with
  | .error err => .ok (F64.zero, some (.request name err))
  | .ok resp =>
    if resp.length = 0 then .ok (F64.zero, some (.accessField name))
    else
      match resp[6]? with
      | none => .error (.indexOutOfRange 6 resp.length)
      | some price =>
        match validatePrice name (.float64 price) with
        | some _ => .ok (F64.zero, some (.invalidPrice name price))
        | none => .ok (price, none)

/-- The element type of `Data` in `fetchBitgetPrice`. -/
structure fetchBitgetPrice.Ticker where
  LastPr : String
  deriving DecidableEq, Repr

/-- `ApiResponse` of `fetchBitgetPrice`. -/
structure fetchBitgetPrice.ApiResponse where
  Data : List fetchBitgetPrice.Ticker
  deriving DecidableEq, Repr

/-- `fetchBitgetPrice` (server.go 82-116). -/
def fetchBitgetPrice (got : Fetched fetchBitgetPrice.ApiResponse) : Quote :=
  let name := "Bitget"
  match got with
  | .error err => (F64.zero, some (.request name err))
  | .ok resp =>
    match resp.Data with
    | [] => (F64.zero, some (.accessField name))
    | first :: _ =>
      let priceStr := first.LastPr
      if priceStr = "" then (F64.zero, some (.emptyField name))
      else
        match strconv.ParseFloat priceStr with
        | (_, some err) => (F64.zero, some (.convert name err))
        | (price, none) =>
          match validatePrice name (.float64 price) with
          | some _ => (F64.zero, some (.invalidPrice name price))
          | none => (price, none)

/-- `ApiResponse` of `fetchBitruePrice`. -/
structure fetchBitruePrice.ApiResponse where
  Price : String
  deriving DecidableEq, Repr

/-- `fetchBitruePrice` (server.go 119-151). -/
def fetchBitruePrice (got : Fetched fetchBitruePrice.ApiResponse) : Quote :=
  let name := "Bitrue"
  match got with
  | .error err => (F64.zero, some (.request name err))
  | .ok resp =>
    if resp.Price.length = 0 then (F64.zero, some (.accessField name))
    else
      let priceStr := resp.Price
      if priceStr = "" then (F64.zero, some (.emptyField name))
      else
        match strconv.ParseFloat priceStr with
        | (_, some err) => (F64.zero, some (.convert name err))
        | (price, none) =>
          match validatePrice name (.float64 price) with
          | some _ => (F64.zero, some (.invalidPrice name price))
          | none => (price, none)

/-- `ApiResponse` of `fetchBTSEPrice` (the response is a slice of them). -/
structure fetchBTSEPrice.ApiResponse where
  LastPrice : F64
  deriving DecidableEq, Repr

/-- `fetchBTSEPrice` (server.go 154-178). -/
def fetchBTSEPrice (got : Fetched (List fetchBTSEPrice.ApiResponse)) : Quote :=
  let name := "BTSE"
  match got with
  | .error err => (F64.zero, some (.request name err))
  | .ok resp =>
    match resp with
    | [] => (F64.zero, some (.accessField name))
    | first :: _ =>
      let price := first.LastPrice
      match validatePrice name (.float64 price) with
      | some _ => (F64.zero, some (.invalidPrice name price))
      | none => (price, none)

/-- `ApiResponse` of `fetchCoinbasePrice`. -/
structure fetchCoinbasePrice.ApiResponse where
  Price : String
  deriving DecidableEq, Repr

/-- `fetchCoinbasePrice` (server.go 181-213). -/
def fetchCoinbasePrice (got : Fetched fetchCoinbasePrice.ApiResponse) : Quote :=
  let name := "Coinbase"
  match got with
  | .error err => (F64.zero, some (.request name err))
  | .ok resp =>
    if resp.Price.length = 0 then (F64.zero, some (.accessField name))
    else
      let priceStr := resp.Price
      if priceStr = "" then (F64.zero, some (.emptyField name))
      else
        match strconv.ParseFloat priceStr with
        | (_, some err) => (F64.zero, some (.convert name err))
        | (price, none) =>
          match validatePrice name (.float64 price) with
          | some _ => (F64.zero, some (.invalidPrice name price))
          | none => (price, none)

/-- The element type of `Result.Data` in `fetchCryptoPrice`. -/
structure fetchCryptoPrice.Ticker where
  A : String
  deriving DecidableEq, Repr

/-- The type of `Result` in `fetchCryptoPrice`. -/
structure fetchCryptoPrice.Result where
  Data : List fetchCryptoPrice.Ticker
  deriving DecidableEq, Repr

/-- `ApiResponse` of `fetchCryptoPrice`. -/
structure fetchCryptoPrice.ApiResponse where
  Result : fetchCryptoPrice.Result
  deriving DecidableEq, Repr

/-- `fetchCryptoPrice` (server.go 216-252). -/
def fetchCryptoPrice (got : Fetched fetchCryptoPrice.ApiResponse) : Quote :=
  let name := "Crypto"
  match got with
  | .error err => (F64.zero, some (.request name err))
  | .ok resp =>
    match resp.Result.Data with
    | [] => (F64.zero, some (.accessField name))
    | first :: _ =>
      let priceStr := first.A
      if priceStr = "" then (F64.zero, some (.emptyField name))
      else
        match strconv.ParseFloat priceStr with
        | (_, some err) => (F64.zero, some (.convert name err))
        | (price, none) =>
          match validatePrice name (.float64 price) with
          | some _ => (F64.zero, some (.invalidPrice name price))
          | none => (price, none)

/-- `ApiResponse` of `fetchGatePrice`. -/
structure fetchGatePrice.ApiResponse where
  Last : String
  deriving DecidableEq, Repr

/-- `fetchGatePrice` (server.go 255-287). -/
def fetchGatePrice (got : Fetched fetchGatePrice.ApiResponse) : Quote :=
  let name := "Gate"
  match got with
  | .error err => (F64.zero, some (.request name err))
  | .ok resp =>
    if resp.Last.length = 0 then (F64.zero, some (.accessField name))
    else
      let priceStr := resp.Last
      if priceStr = "" then (F64.zero, some (.emptyField name))
      else
        match strconv.ParseFloat priceStr with
        | (_, some err) => (F64.zero, some (.convert name err))
        | (price, none) =>
          match validatePrice name (.float64 price) with
          | some _ => (F64.zero, some (.invalidPrice name price))
          | none => (price, none)

/-- The element type of `Tick.Data` in `fetchHuobiPrice`. -/
structure fetchHuobiPrice.Trade where
  Price : F64
  deriving DecidableEq, Repr

/-- The type of `Tick` in `fetchHuobiPrice`. -/
structure fetchHuobiPrice.Tick where
  Data : List fetchHuobiPrice.Trade
  deriving DecidableEq, Repr

/-- `ApiResponse` of `fetchHuobiPrice`. -/
structure fetchHuobiPrice.ApiResponse where
  Tick : fetchHuobiPrice.Tick
  deriving DecidableEq, Repr

/-- `fetchHuobiPrice` (server.go 290-318). -/
def fetchHuobiPrice (got : Fetched fetchHuobiPrice.ApiResponse) : Quote :=
  let name := "Huobi"
  match got with
  | .error err => (F64.zero, some (.request name err))
  | .ok resp =>
    match resp.Tick.Data with
    | [] => (F64.zero, some (.accessField name))
    | first :: _ =>
      let price := first.Price
      match validatePrice name (.float64 price) with
      | some _ => (F64.zero, some (.invalidPrice name price))
      | none => (price, none)

/-- The type of `Result.XXBTZUSD` in `fetchKrakenPrice`. -/
structure fetchKrakenPrice.Pair where
  A : List String
  deriving DecidableEq, Repr

/-- The type of `Result` in `fetchKrakenPrice`. -/
structure fetchKrakenPrice.Result where
  XXBTZUSD : fetchKrakenPrice.Pair
  deriving DecidableEq, Repr

/-- `ApiResponse` of `fetchKrakenPrice`. -/
structure fetchKrakenPrice.ApiResponse where
  Result : fetchKrakenPrice.Result
  deriving DecidableEq, Repr

/-- `fetchKrakenPrice` (server.go 321-357). -/
def fetchKrakenPrice (got : Fetched fetchKrakenPrice.ApiResponse) : Quote :=
  let name := "Kraken"
  match got with
  | .error err => (F64.zero, some (.request name err))
  | .ok resp =>
    match resp.Result.XXBTZUSD.A with
    | [] => (F64.zero, some (.accessField name))
    | priceStr :: _ =>
      if priceStr = "" then (F64.zero, some (.emptyField name))
      else
        match strconv.ParseFloat priceStr with
        | (_, some err) => (F64.zero, some (.convert name err))
        | (price, none) =>
          match validatePrice name (.float64 price) with
          | some _ => (F64.zero, some (.invalidPrice name price))
          | none => (price, none)

/-- The type of `Data` in `fetchKuCoinPrice`. -/
structure fetchKuCoinPrice.Data where
  Price : String
  deriving DecidableEq, Repr

/-- `ApiResponse` of `fetchKuCoinPrice`. -/
structure fetchKuCoinPrice.ApiResponse where
  Data : fetchKuCoinPrice.Data
  deriving DecidableEq, Repr

/-- `fetchKuCoinPrice` (server.go 360-394). -/
def fetchKuCoinPrice (got : Fetched fetchKuCoinPrice.ApiResponse) : Quote :=
  let name := "KuCoin"
  match got with
  | .error err => (F64.zero, some (.request name err))
  | .ok resp =>
    if resp.Data.Price.length = 0 then (F64.zero, some (.accessField name))
    else
      let priceStr := resp.Data.Price
      if priceStr = "" then (F64.zero, some (.emptyField name))
      else
        match strconv.ParseFloat priceStr with
        | (_, some err) => (F64.zero, some (.convert name err))
        | (price, none) =>
          match validatePrice name (.float64 price) with
          | some _ => (F64.zero, some (.invalidPrice name price))
          | none => (price, none)

/-- The element type of `Data` in `fetchOKXPrice`. -/
structure fetchOKXPrice.Ticker where
  Last : String
  deriving DecidableEq, Repr

/-- `ApiResponse` of `fetchOKXPrice`. -/
structure fetchOKXPrice.ApiResponse where
  Data : List fetchOKXPrice.Ticker
  deriving DecidableEq, Repr

/-- `fetchOKXPrice` (server.go 397-431). -/
def fetchOKXPrice (got : Fetched fetchOKXPrice.ApiResponse) : Quote :=
  let name := "OKX"
  match got with
  | .error err => (F64.zero, some (.request name err))
  | .ok resp =>
    match resp.Data with
    | [] => (F64.zero, some (.accessField name))
    | first :: _ =>
      let priceStr := first.Last
      if priceStr = "" then (F64.zero, some (.emptyField name))
      else
        match strconv.ParseFloat priceStr with
        | (_, some err) => (F64.zero, some (.convert name err))
        | (price, none) =>
          match validatePrice name (.float64 price) with
          | some _ => (F64.zero, some (.invalidPrice name price))
          | none => (price, none)

/-- The element type of `Result` in `fetchXTPrice`. -/
structure fetchXTPrice.Ticker where
  C : String
  deriving DecidableEq, Repr

/-- `ApiResponse` of `fetchXTPrice`. -/
structure fetchXTPrice.ApiResponse where
  Result : List fetchXTPrice.Ticker
  deriving DecidableEq, Repr

/-- `fetchXTPrice` (server.go 434-468).  Line 463 reads
`if validatePrice(name, price); err != nil`: the call is the `if`'s init
statement and its result is dropped; the condition tests `err`, the error of
`ParseFloat`, which is `nil` on this path. -/
def fetchXTPrice (got : Fetched fetchXTPrice.ApiResponse) : Quote :=
  let name := "XT"
  match got with
  | .error err => (F64.zero, some (.request name err))
  | .ok resp =>
    match resp.Result with
    | [] => (F64.zero, some (.accessField name))
    | first :: _ =>
      let priceStr := first.C
      if priceStr = "" then (F64.zero, some (.emptyField name))
      else
        match strconv.ParseFloat priceStr with
        | (_, some err) => (F64.zero, some (.convert name err))
        | (price, err) =>
          let _ := validatePrice name (.float64 price)
          if err ≠ none then (F64.zero, some (.invalidPrice name price))
          else (price, none)

/-! ## The scheduler cycle of `main` -/

/-- What the twelve `getPriceData` calls of one cycle leave the adapters with. -/
structure Responses where
  bitfinex : Fetched (List F64)
  bitget : Fetched fetchBitgetPrice.ApiResponse
  bitrue : Fetched fetchBitruePrice.ApiResponse
  btse : Fetched (List fetchBTSEPrice.ApiResponse)
  coinbase : Fetched fetchCoinbasePrice.ApiResponse
  crypto : Fetched fetchCryptoPrice.ApiResponse
  gate : Fetched fetchGatePrice.ApiResponse
  huobi : Fetched fetchHuobiPrice.ApiResponse
  kraken : Fetched fetchKrakenPrice.ApiResponse
  kucoin : Fetched fetchKuCoinPrice.ApiResponse
  okx : Fetched fetchOKXPrice.ApiResponse
  xt : Fetched fetchXTPrice.ApiResponse

/-- The body of `for _, fetch := range prices` (server.go 494-500) on what
`fetch()` returned: `if err == nil { total += price; count++ }`. -/
def accumulate (acc : F64 × Nat) (q : Quote) : F64 × Nat :=
  match q.2 with
  | none => (acc.1 + q.1, acc.2 + 1)
  | some _ => acc

/-- The loop of server.go 494-500 over the adapters' results, from
`total := 0.0`, `count := 0`. -/
def runLoop (quotes : List Quote) : F64 × Nat :=
  quotes.foldl accumulate (F64.zero, 0)

/-- Lines 502-507 of server.go: `if count > 0 { avgPrice = total / float64(count) }`;
the result is `avgPrice` afterwards. -/
def publish (avgPrice : F64) (acc : F64 × Nat) : F64 :=
  if acc.2 > 0 then acc.1 / F64.ofNat acc.2 else avgPrice

/-- One pass of the scheduler loop (server.go 476-507) over the results of the
adapters, in the order they were called: `avgPrice` afterwards. -/
def cycle (avgPrice : F64) (quotes : List Quote) : F64 :=
  publish avgPrice (runLoop quotes)

/-- The results of the twelve adapters in the order of the slice `prices`
(server.go 479-492), or the panic of the first one that panics. -/
def fetchAll (r : Responses) : Except Panic (List Quote) :=
  match fetchBitfinexPrice r.bitfinex with
  | .error p => .error p
  | .ok bitfinex =>
    .ok [bitfinex, fetchBitgetPrice r.bitget, fetchBitruePrice r.bitrue,
      fetchBTSEPrice r.btse, fetchCoinbasePrice r.coinbase, fetchCryptoPrice r.crypto,
      fetchGatePrice r.gate, fetchHuobiPrice r.huobi, fetchKrakenPrice r.kraken,
      fetchKuCoinPrice r.kucoin, fetchOKXPrice r.okx, fetchXTPrice r.xt]

/-- One pass of the scheduler loop of `main` on the responses `r`: `avgPrice`
afterwards, or the panic that ends the process. -/
def mainCycle (avgPrice : F64) (r : Responses) : Except Panic F64 :=
  match fetchAll r with
  | .error p => .error p
  | .ok quotes => .ok (cycle avgPrice quotes)

/-- The scheduler loop run over the responses of successive cycles. -/
def runCycles (avgPrice : F64) : List Responses → Except Panic F64
  | [] => .ok avgPrice
  | r :: rs =>
    match mainCycle avgPrice r with
    | .error p => .error p
    | .ok avg => runCycles avg rs

/-- The handler of `GET /` (server.go 513-517): `c.JSON(200, {"average_price":
avgPrice})`.  It answers with `avgPrice` under `"average_price"` when the value
is finite; Go's JSON encoder refuses NaN and the infinities, and the handler then
returns that error and no `average_price`. -/
def readHandler (avgPrice : F64) : Except Error F64 :=
  if avgPrice.isFinite then .ok avgPrice else .error (.unsupportedValue avgPrice)

/-- The initial `avgPrice`: the zero value of a package-level `float64`. -/
def initialAvgPrice : F64 := F64.zero

/-! ## Vocabulary of the properties -/

/-- The value is finite and greater than zero. -/
def F64.isPositiveFinite : F64 → Bool
  | .fin neg ex frac => decide (0 < F64.sunits neg ex frac)
  | _ => false

/-- The prices of the adapters that succeeded (`err == nil`), in call order. -/
def successes (quotes : List Quote) : List F64 :=
  (quotes.filter (fun q => q.2.isNone)).map Prod.fst

/-- The `float64` sum of `prices` as the loop forms it: from `0.0`, adding one
price after the other, each addition rounded. -/
def sumPrices (prices : List F64) : F64 :=
  prices.foldl (· + ·) F64.zero

/-- The magnitude of a finite value in units of `2^-1074`; 0 for NaN and the
infinities. -/
def F64.unitsOf : F64 → Nat
  | .fin _ ex frac => F64.units ex frac
  | _ => 0

/-- The value is finite with its sign bit clear, and a whole multiple of `2^e`
units of `2^-1074`. -/
def F64.OnGrid (e : Nat) (p : F64) : Prop :=
  ∃ ex frac, p = .fin false ex frac ∧ 2 ^ e ∣ F64.units ex frac

/-- The prices lie on one binary grid and add up to less than `2^53` of its
steps: then every sum of some of them is a `float64`, and each addition the
loop makes is exact in whatever order it takes them. -/
def ExactlySummable (prices : List F64) : Prop :=
  ∃ e, e ≤ 2045 ∧ (∀ p ∈ prices, F64.OnGrid e p) ∧
    (prices.map F64.unitsOf).sum < 2 ^ (53 + e)

/-- The value is `+0` or `-0`. -/
def F64.isZero : F64 → Bool
  | .fin _ ex frac => decide (F64.units ex frac = 0)
  | _ => false

/-- The value is NaN, `+Inf`, or finite with its sign bit clear and a magnitude of at
least `j` units of `2^-1074`: what a sum of `j` validated prices can be. -/
def F64.AtLeast (j : Nat) (v : F64) : Prop :=
  v = .nan ∨ v = .inf false ∨ ∃ ex frac, v = .fin false ex frac ∧ j ≤ F64.units ex frac

/-- The adapter result `q` is a failure that the loop skips: its error is not
`nil`, and the loop body leaves `total` and `count` as they were. -/
def Skipped (q : Quote) : Prop :=
  q.2 ≠ none ∧ ∀ acc : F64 × Nat, accumulate acc q = acc

/-- The `float64` 67890.5, that is `1.03592681884765625 * 2^16`. -/
def price67890_5 : F64 := .fin false 1039 161800007974912

/-- The `float64` 1e16. -/
def price1e16 : F64 := .fin false 1076 496400372629504

/-- The `float64` 1. -/
def price1 : F64 := .fin false 1023 0

/-- The `float64` 67891.5. -/
def price67891_5 : F64 := .fin false 1039 161868727451648

/-- The `float64` 0.1 (the binary64 nearest to one tenth). -/
def price0_1 : F64 := .fin false 1019 2702159776422298

/-- The `float64` 67926.97. -/
def price67926_97 : F64 := .fin false 1039 164306207291474

/-- The `float64` 67915.60. -/
def price67915_60 : F64 := .fin false 1039 163524866840986

/-- The `float64` 67966.48. -/
def price67966_48 : F64 := .fin false 1039 167021313817313

/-- The largest finite `float64`, 1.7976931348623157e308. -/
def maxFloat64 : F64 := .fin false 2046 4503599627370495

/-- A cycle in which every provider answers with the same price: `price` where
the provider sends a number, the string `str` where it sends a string. -/
def everyProvider (price : F64) (str : String) : Responses where
  bitfinex := .ok [F64.zero, F64.zero, F64.zero, F64.zero, F64.zero, F64.zero, price]
  bitget := .ok ⟨[⟨str⟩]⟩
  bitrue := .ok ⟨str⟩
  btse := .ok [⟨price⟩]
  coinbase := .ok ⟨str⟩
  crypto := .ok ⟨⟨[⟨str⟩]⟩⟩
  gate := .ok ⟨str⟩
  huobi := .ok ⟨⟨[⟨price⟩]⟩⟩
  kraken := .ok ⟨⟨⟨[str]⟩⟩⟩
  kucoin := .ok ⟨⟨str⟩⟩
  okx := .ok ⟨[⟨str⟩]⟩
  xt := .ok ⟨[⟨str⟩]⟩

/-- A `getPriceData` call that failed with HTTP status 503. -/
def unavailable {α : Type} (url : String) : Fetched α := .error (.statusCode url 503)

/-- A cycle in which every provider answers 503, except XT, which answers
`{"result":[{"c": c}]}`. -/
def onlyXT (c : String) : Responses where
  bitfinex := unavailable "https://api.bitfinex.com/v2/ticker/tBTCUSD"
  bitget := unavailable "https://api.bitget.com/api/v2/spot/market/tickers?symbol=BTCUSDT"
  bitrue := unavailable "https://openapi.bitrue.com/api/v1/ticker/price?symbol=btcusdt"
  btse := unavailable "https://api.btse.com/spot/api/v3.2/price?symbol=BTC-USD"
  coinbase := unavailable "https://api.exchange.coinbase.com/products/BTC-USD/ticker"
  crypto := unavailable "https://api.crypto.com/v2/public/get-ticker?instrument_name=BTC_USDT"
  gate := unavailable "https://data.gateapi.io/api2/1/ticker/sbtc_usdt"
  huobi := unavailable "https://api.huobi.pro/market/trade?symbol=btcusdt"
  kraken := unavailable "https://api.kraken.com/0/public/Ticker?pair=BTCUSD"
  kucoin := unavailable "https://api.kucoin.com/api/v1/market/orderbook/level1?symbol=BTC-USDC"
  okx := unavailable "https://www.okx.com/api/v5/market/ticker?instId=BTC-USDC"
  xt := .ok ⟨[⟨c⟩]⟩

/-- The cycle `onlyXT c` with the Bitfinex answer replaced by the decoded array `resp`. -/
def withBitfinex (resp : List F64) (c : String) : Responses :=
  { onlyXT c with bitfinex := .ok resp }

/-! ## `float64` arithmetic -/

namespace F64

theorem bitLengthFrom_eq (acc fuel n : Nat) :
    bitLengthFrom acc fuel n = acc + bitLengthFrom 0 fuel n := by
  induction fuel generalizing acc n with
  | zero => simp [bitLengthFrom]
  | succ fuel ih =>
    by_cases hn : n = 0
    · simp [bitLengthFrom, hn]
    · simp only [bitLengthFrom, hn, if_false]
      rw [ih (acc + 1), ih (0 + 1)]
      omega

theorem bitLength_zero (fuel : Nat) : bitLength fuel 0 = 0 := by
  cases fuel <;> simp [bitLength, bitLengthFrom]

theorem bitLength_succ (fuel n : Nat) (hn : n ≠ 0) :
    bitLength (fuel + 1) n = bitLength fuel (n / 2) + 1 := by
  simp only [bitLength, bitLengthFrom, hn, if_false]
  rw [bitLengthFrom_eq]
  omega

theorem bitLength_bounds (fuel n : Nat) (h : n ≤ fuel) :
    n < 2 ^ bitLength fuel n ∧ (n ≠ 0 → 2 ^ bitLength fuel n ≤ 2 * n) := by
  induction fuel generalizing n with
  | zero =>
    have hn : n = 0 := by omega
    subst hn
    simp [bitLength, bitLengthFrom]
  | succ fuel ih =>
    by_cases hn : n = 0
    · subst hn
      simp [bitLength_zero]
    · have hle : n / 2 ≤ fuel := by omega
      obtain ⟨h1, h2⟩ := ih (n / 2) hle
      rw [bitLength_succ fuel n hn, pow_succ]
      refine ⟨by omega, fun _ => ?_⟩
      by_cases hh : n / 2 = 0
      · rw [hh, bitLength_zero]
        omega
      · have := h2 hh
        omega

theorem bitLength_eq (n b : Nat) (hn : n ≠ 0) (hlo : 2 ^ b ≤ 2 * n) (hhi : n < 2 ^ b) :
    bitLength n n = b := by
  obtain ⟨h1, h2⟩ := bitLength_bounds n n le_rfl
  have h2 := h2 hn
  have ha : bitLength n n < b + 1 := by
    apply (Nat.pow_lt_pow_iff_right (by norm_num : 1 < 2)).mp
    rw [pow_succ]
    omega
  have hb : b < bitLength n n + 1 := by
    apply (Nat.pow_lt_pow_iff_right (by norm_num : 1 < 2)).mp
    rw [pow_succ]
    omega
  omega

theorem rne_of_dvd (a b : Nat) (hb : 0 < b) (h : b ∣ a) : rne a b = a / b := by
  have hm : a % b = 0 := Nat.mod_eq_zero_of_dvd h
  simp [rne, hm, hb]


theorem encode_subnormal (neg : Bool) (k : Nat) (h : k < 4503599627370496) :
    encode neg k 0 = fin neg 0 ⟨k, h⟩ := by
  simp [encode, h]

theorem units_mk_zero (k : Nat) (h : k < 4503599627370496) :
    units 0 ⟨k, h⟩ = k := by
  simp [units]

theorem units_mk_succ (e k : Nat) (he : e + 1 < 2047) (h : k < 4503599627370496) :
    units ⟨e + 1, he⟩ ⟨k, h⟩ = (4503599627370496 + k) * 2 ^ e := by
  simp [units]

/-- Rounding a magnitude that is `k * 2^e` units with `k < 2^53` and `e ≤ 2045`
is exact: the result is finite and has exactly that many units. -/
theorem round_exact (neg : Bool) (k e : Nat) (hk : k < 9007199254740992) (he : e ≤ 2045) :
    ∃ ex frac, round neg (k * 2 ^ e) 1 = fin neg ex frac ∧ units ex frac = k * 2 ^ e := by
  have h53 : (2 : Nat) ^ 53 = 9007199254740992 := by norm_num
  have h52 : (2 : Nat) ^ 52 = 4503599627370496 := by norm_num
  set n := k * 2 ^ e with hn
  unfold round
  simp only [Nat.div_one, one_mul]
  by_cases hsmall : n < 9007199254740992
  · -- below 2^53 units the spacing is one unit
    have hB : bitLength n n - 53 = 0 := by
      by_cases h0 : n = 0
      · rw [h0, bitLength_zero]
      · have := (bitLength_bounds n n le_rfl).2 h0
        have hlt : bitLength n n < 54 := by
          apply (Nat.pow_lt_pow_iff_right (by norm_num : 1 < 2)).mp
          have : (2 : Nat) ^ 54 = 2 * 9007199254740992 := by norm_num
          omega
        omega
    rw [hB]
    have hr : rne n (2 ^ 0) = n := by
      rw [rne_of_dvd n (2 ^ 0) (by norm_num) (by simp)]
      simp
    rw [hr]
    by_cases hsub : n < 4503599627370496
    · exact ⟨0, ⟨n, hsub⟩, encode_subnormal neg n hsub, units_mk_zero n hsub⟩
    · refine ⟨⟨0 + 1, by norm_num⟩, ⟨n - 4503599627370496, by omega⟩, ?_, ?_⟩
      · simp [encode, hsub, hsmall]
      · rw [units_mk_succ]
        simp
        omega
  · -- at or above 2^53 units
    have h0 : n ≠ 0 := by omega
    obtain ⟨hB1, hB2⟩ := bitLength_bounds n n le_rfl
    have hB2 := hB2 h0
    set B := bitLength n n with hBdef
    have hBge : 54 ≤ B := by
      by_contra hc
      have : B ≤ 53 := by omega
      have : (2 : Nat) ^ B ≤ 2 ^ 53 := Nat.pow_le_pow_right (by norm_num) this
      omega
    have hnlt : n < 2 ^ (53 + e) := by
      rw [pow_add, h53, hn]
      exact Nat.mul_lt_mul_of_lt_of_le hk le_rfl (by positivity)
    have hBle : B ≤ 53 + e := by
      by_contra hc
      have : 53 + e + 1 ≤ B := by omega
      have : (2 : Nat) ^ (53 + e + 1) ≤ 2 ^ B := Nat.pow_le_pow_right (by norm_num) this
      rw [pow_succ] at this
      omega
    set e1 := B - 53 with he1
    have he1e : e1 ≤ e := by omega
    have hdvd : 2 ^ e1 ∣ n := by
      rw [hn]
      exact Dvd.dvd.mul_left (Nat.pow_dvd_pow 2 he1e) k
    have hpos : 0 < 2 ^ e1 := by positivity
    rw [rne_of_dvd n (2 ^ e1) hpos hdvd]
    obtain ⟨k1, hk1⟩ := hdvd
    have hq : n / 2 ^ e1 = k1 := by
      rw [hk1]
      exact Nat.mul_div_cancel_left k1 hpos
    rw [hq]
    have hBsplit : B = e1 + 53 := by omega
    have hk1lt : k1 < 9007199254740992 := by
      by_contra hc
      have : 9007199254740992 ≤ k1 := by omega
      have : 2 ^ e1 * 9007199254740992 ≤ 2 ^ e1 * k1 := Nat.mul_le_mul_left _ this
      rw [hBsplit, pow_add, h53] at hB1
      omega
    have hk1ge : 4503599627370496 ≤ k1 := by
      by_contra hc
      have : k1 + 1 ≤ 4503599627370496 := by omega
      have h3 : 2 ^ e1 * (k1 + 1) ≤ 2 ^ e1 * 4503599627370496 := Nat.mul_le_mul_left _ this
      rw [hBsplit, show e1 + 53 = e1 + 52 + 1 by omega, pow_succ, pow_add, h52] at hB2
      have h4 : 2 ^ e1 * (k1 + 1) = 2 ^ e1 * k1 + 2 ^ e1 := by ring
      omega
    have hex : e1 + 1 < 2047 := by omega
    refine ⟨⟨e1 + 1, hex⟩, ⟨k1 - 4503599627370496, by omega⟩, ?_, ?_⟩
    · have h1 : ¬ k1 < 4503599627370496 := by omega
      simp [encode, h1, hk1lt, hex]
    · rw [units_mk_succ, hk1]
      have : 4503599627370496 + (k1 - 4503599627370496) = k1 := by omega
      rw [this]
      ring


theorem units_zero_lt (frac : Fin 4503599627370496) : units 0 frac < 4503599627370496 := by
  simp [units]

theorem units_pos_bounds (ex : Fin 2047) (frac : Fin 4503599627370496) (h : ex.val ≠ 0) :
    4503599627370496 * 2 ^ (ex.val - 1) ≤ units ex frac ∧
      units ex frac < 2 * (4503599627370496 * 2 ^ (ex.val - 1)) := by
  have hf := frac.isLt
  have hp : 0 < 2 ^ (ex.val - 1) := by positivity
  simp only [units, h, if_false]
  constructor
  · exact Nat.mul_le_mul_right _ (by omega)
  · have : (4503599627370496 + frac.val) * 2 ^ (ex.val - 1)
        < (2 * 4503599627370496) * 2 ^ (ex.val - 1) :=
      Nat.mul_lt_mul_of_lt_of_le (by omega) le_rfl hp
    rw [Nat.mul_assoc] at this
    exact this

/-- Distinct finite values of one sign have distinct magnitudes. -/
theorem units_injective (ex ex1 : Fin 2047) (frac frac1 : Fin 4503599627370496)
    (h : units ex frac = units ex1 frac1) : ex = ex1 ∧ frac = frac1 := by
  by_cases h0 : ex.val = 0
  · by_cases h1 : ex1.val = 0
    · have : frac.val = frac1.val := by simpa [units, h0, h1] using h
      exact ⟨Fin.ext (by omega), Fin.ext this⟩
    · exfalso
      have ha : units ex frac < 4503599627370496 := by
        have := frac.isLt
        simp [units, h0]
      have hb := (units_pos_bounds ex1 frac1 h1).1
      have hp : 1 ≤ 2 ^ (ex1.val - 1) := Nat.one_le_two_pow
      have : 4503599627370496 * 1 ≤ 4503599627370496 * 2 ^ (ex1.val - 1) :=
        Nat.mul_le_mul_left _ hp
      omega
  · by_cases h1 : ex1.val = 0
    · exfalso
      have ha : units ex1 frac1 < 4503599627370496 := by
        have := frac1.isLt
        simp [units, h1]
      have hb := (units_pos_bounds ex frac h0).1
      have hp : 1 ≤ 2 ^ (ex.val - 1) := Nat.one_le_two_pow
      have : 4503599627370496 * 1 ≤ 4503599627370496 * 2 ^ (ex.val - 1) :=
        Nat.mul_le_mul_left _ hp
      omega
    · obtain ⟨a1, a2⟩ := units_pos_bounds ex frac h0
      obtain ⟨b1, b2⟩ := units_pos_bounds ex1 frac1 h1
      rw [h] at a1 a2
      have hexp : ex.val - 1 = ex1.val - 1 := by
        rcases Nat.lt_trichotomy (ex.val - 1) (ex1.val - 1) with hlt | heq | hgt
        · exfalso
          have : 2 ^ (ex.val - 1 + 1) ≤ 2 ^ (ex1.val - 1) := Nat.pow_le_pow_right (by norm_num) hlt
          rw [pow_succ] at this
          have := Nat.mul_le_mul_left 4503599627370496 this
          omega
        · exact heq
        · exfalso
          have : 2 ^ (ex1.val - 1 + 1) ≤ 2 ^ (ex.val - 1) := Nat.pow_le_pow_right (by norm_num) hgt
          rw [pow_succ] at this
          have := Nat.mul_le_mul_left 4503599627370496 this
          omega
      have hex : ex = ex1 := Fin.ext (by omega)
      refine ⟨hex, Fin.ext ?_⟩
      simp only [units, h0, h1, if_false, hexp] at h
      have hp : 0 < 2 ^ (ex1.val - 1) := by positivity
      have := Nat.eq_of_mul_eq_mul_right hp h
      omega

/-- A finite value is `k * 2^e` units with `k < 2^53` and `e ≤ 2045`. -/
theorem units_representable (ex : Fin 2047) (frac : Fin 4503599627370496) :
    ∃ k e, units ex frac = k * 2 ^ e ∧ k < 9007199254740992 ∧ e ≤ 2045 := by
  have hf := frac.isLt
  have he := ex.isLt
  by_cases h0 : ex.val = 0
  · exact ⟨frac.val, 0, by simp [units, h0], by omega, by omega⟩
  · exact ⟨4503599627370496 + frac.val, ex.val - 1, by simp [units, h0], by omega, by omega⟩

/-- Rounding the magnitude of a finite value gives that value back. -/
theorem round_units (neg : Bool) (ex : Fin 2047) (frac : Fin 4503599627370496) :
    round neg (units ex frac) 1 = fin neg ex frac := by
  obtain ⟨k, e, hu, hk, he⟩ := units_representable ex frac
  obtain ⟨ex1, frac1, hr, hu1⟩ := round_exact neg k e hk he
  rw [← hu] at hr hu1
  obtain ⟨h1, h2⟩ := units_injective ex1 ex frac1 frac hu1
  rw [hr, h1, h2]

theorem units_eq_zero (ex : Fin 2047) (frac : Fin 4503599627370496) (h : units ex frac = 0) :
    ex = 0 ∧ frac = 0 := by
  have : units ex frac = units 0 0 := by rw [h]; rfl
  exact units_injective ex 0 frac 0 this

theorem add_nan_right (a : F64) : add a nan = nan := by
  cases a <;> rfl

theorem add_comm (a b : F64) : add a b = add b a := by
  cases a with
  | nan => rw [add_nan_right]; cases b <;> rfl
  | inf na =>
    cases b with
    | nan => rfl
    | inf nb =>
      cases na <;> cases nb <;> rfl
    | fin nb eb fb => rfl
  | fin na ea fa =>
    cases b with
    | nan => rfl
    | inf nb => rfl
    | fin nb eb fb =>
      simp only [add, Int.add_comm (sunits na ea fa), Bool.and_comm na]

/-- `0.0 + x` is `x`, except that `0.0 + (-0)` is `+0`. -/
theorem zero_add_fin (neg : Bool) (ex : Fin 2047) (frac : Fin 4503599627370496) :
    add zero (fin neg ex frac) = fin (neg && decide (units ex frac ≠ 0)) ex frac := by
  have h0 : sunits false 0 0 = 0 := by decide
  simp only [add, zero, h0, Int.zero_add]
  by_cases hu : units ex frac = 0
  · obtain ⟨h1, h2⟩ := units_eq_zero ex frac hu
    have hs : sunits neg ex frac = 0 := by
      cases neg <;> simp [sunits, hu]
    subst h1 h2
    have hu0 : units 0 0 = 0 := hu
    simp [hs, hu0]
  · have hs : sunits neg ex frac ≠ 0 := by
      cases neg <;> simp [sunits, hu]
    have habs : (sunits neg ex frac).natAbs = units ex frac := by
      cases neg <;> simp [sunits]
    have hneg : decide (sunits neg ex frac < 0) = neg := by
      have hpos : 0 < units ex frac := Nat.pos_of_ne_zero hu
      cases neg
      · simp [sunits]
      · simp [sunits, hpos]
    simp only [hs, if_false, habs, hneg, round_units]
    simp [hu]


theorem add_def (a b : F64) : a + b = add a b := rfl

theorem sunits_norm (neg : Bool) (ex : Fin 2047) (frac : Fin 4503599627370496) :
    sunits (neg && decide (units ex frac ≠ 0)) ex frac = sunits neg ex frac := by
  by_cases hu : units ex frac = 0
  · cases neg <;> simp [sunits, hu]
  · simp [hu]

/-- Two prices give the same `float64` sum in either order. -/
theorem add_zero_add_comm (a b : F64) : add (add zero a) b = add (add zero b) a := by
  cases a with
  | nan =>
    have h1 : add zero nan = nan := rfl
    rw [h1, add_nan_right]
    cases b <;> rfl
  | inf na =>
    have h1 : add zero (inf na) = inf na := rfl
    rw [h1]
    cases b with
    | nan => rfl
    | inf nb =>
      have h2 : add zero (inf nb) = inf nb := rfl
      rw [h2, add_comm]
    | fin nb eb fb => rw [zero_add_fin]; rfl
  | fin na ea fa =>
    cases b with
    | nan =>
      have h1 : add zero nan = nan := rfl
      rw [h1, add_nan_right]
      rfl
    | inf nb =>
      have h2 : add zero (inf nb) = inf nb := rfl
      rw [h2, zero_add_fin]
      rfl
    | fin nb eb fb =>
      rw [zero_add_fin, zero_add_fin]
      simp only [add, sunits_norm]
      rw [Int.add_comm (sunits nb eb fb)]
      by_cases hs : sunits na ea fa + sunits nb eb fb = 0
      · simp only [hs, if_true]
        congr 1
        by_cases hua : units ea fa = 0
        · have hub : units eb fb = 0 := by
            cases na <;> cases nb <;> simp [sunits, hua] at hs <;> exact hs
          simp [hua, hub]
        · have hub : units eb fb ≠ 0 := by
            intro hub
            cases na <;> cases nb <;> simp [sunits, hub] at hs <;> exact hua hs
          cases na <;> cases nb <;> simp [sunits, hua, hub] at hs ⊢
      · simp only [hs, if_false]

theorem add_fin_nonneg (ea eb : Fin 2047) (fa fb : Fin 4503599627370496) :
    add (fin false ea fa) (fin false eb fb) = round false (units ea fa + units eb fb) 1 := by
  simp only [add, sunits, Bool.false_eq_true, if_false, Bool.and_self]
  by_cases hs : (units ea fa : Int) + (units eb fb : Int) = 0
  · have h0 : units ea fa + units eb fb = 0 := by omega
    rw [if_pos hs, h0]
    rfl
  · rw [if_neg hs]
    have h1 : decide ((units ea fa : Int) + (units eb fb : Int) < 0) = false := by
      simp
      omega
    have h2 : ((units ea fa : Int) + (units eb fb : Int)).natAbs = units ea fa + units eb fb := by
      omega
    rw [h1, h2]

/-- On a common grid the loop's sum is exact: it is the `float64` whose
magnitude is the sum of the magnitudes. -/
theorem foldl_add_exact (e : Nat) (he : e ≤ 2045) (prices : List F64)
    (hgrid : ∀ p ∈ prices, OnGrid e p) (ex : Fin 2047) (frac : Fin 4503599627370496)
    (hacc : 2 ^ e ∣ units ex frac)
    (hsum : units ex frac + (prices.map unitsOf).sum < 2 ^ (53 + e)) :
    prices.foldl (· + ·) (fin false ex frac) =
      round false (units ex frac + (prices.map unitsOf).sum) 1 := by
  induction prices generalizing ex frac with
  | nil => simp [round_units]
  | cons p ps ih =>
    obtain ⟨ep, fp, hp, hdvd⟩ := hgrid p (List.mem_cons_self _ _)
    subst hp
    simp only [List.map_cons, List.sum_cons, unitsOf] at hsum ⊢
    rw [List.foldl_cons, add_def, add_fin_nonneg]
    have hd : 2 ^ e ∣ units ex frac + units ep fp := Dvd.dvd.add hacc hdvd
    obtain ⟨k, hk⟩ := hd
    have hpos : 0 < 2 ^ e := by positivity
    have hklt : k < 9007199254740992 := by
      by_contra hc
      have h1 : 9007199254740992 ≤ k := by omega
      have h2 : 2 ^ e * 9007199254740992 ≤ 2 ^ e * k := Nat.mul_le_mul_left _ h1
      have h3 : (2 : Nat) ^ (53 + e) = 2 ^ e * 9007199254740992 := by
        rw [pow_add]
        norm_num
        ring
      omega
    obtain ⟨ex1, frac1, hr, hu⟩ := round_exact false k e hklt he
    rw [Nat.mul_comm, ← hk] at hr hu
    rw [hr, ih (fun q hq => hgrid q (List.mem_cons_of_mem _ hq)) ex1 frac1
      (by rw [hu, hk]; exact Dvd.intro k rfl) (by rw [hu]; omega), hu, Nat.add_assoc]

theorem sumPrices_exact (prices : List F64) (h : ExactlySummable prices) :
    sumPrices prices = round false (prices.map unitsOf).sum 1 := by
  obtain ⟨e, he, hgrid, hsum⟩ := h
  have h0 : units 0 0 = 0 := rfl
  have := foldl_add_exact e he prices hgrid 0 0 (by rw [h0]; exact Nat.dvd_zero _)
    (by rw [h0]; omega)
  rw [h0, Nat.zero_add] at this
  exact this

theorem rne_ge (a b : Nat) : a / b ≤ rne a b := by
  unfold rne
  split_ifs <;> omega

theorem encode_units_ge (neg : Bool) (k e : Nat) (hk : 4503599627370496 ≤ k) :
    encode neg k e = inf neg ∨
      ∃ ex frac, encode neg k e = fin neg ex frac ∧ 4503599627370496 * 2 ^ e ≤ units ex frac := by
  have h1 : ¬ k < 4503599627370496 := by omega
  unfold encode
  rw [dif_neg h1]
  by_cases h53 : k < 9007199254740992
  · rw [dif_pos h53]
    by_cases he : e + 1 < 2047
    · rw [dif_pos he]
      refine Or.inr ⟨_, _, rfl, ?_⟩
      rw [units_mk_succ]
      exact Nat.mul_le_mul_right _ (by omega)
    · rw [dif_neg he]
      exact Or.inl rfl
  · rw [dif_neg h53]
    by_cases he : e + 2 < 2047
    · rw [dif_pos he]
      refine Or.inr ⟨_, _, rfl, ?_⟩
      have hu : units ⟨e + 2, he⟩ 0 = 4503599627370496 * 2 ^ (e + 1) := by
        simp [units]
      rw [hu]
      exact Nat.mul_le_mul_left _ (Nat.pow_le_pow_right (by norm_num) (by omega))
    · rw [dif_neg he]
      exact Or.inl rfl

/-- Rounding does not go below a representable lower bound: if the magnitude is
at least `m ≤ 2^53` units, so is the rounded one (or it overflows). -/
theorem round_atLeast (n m : Nat) (hm : m ≤ 9007199254740992) (h : m ≤ n) :
    AtLeast m (round false n 1) := by
  by_cases hsmall : n < 9007199254740992
  · obtain ⟨ex, frac, hr, hu⟩ := round_exact false n 0 hsmall (by omega)
    simp only [pow_zero, Nat.mul_one] at hr hu
    exact Or.inr (Or.inr ⟨ex, frac, hr, by omega⟩)
  · have h0 : n ≠ 0 := by omega
    obtain ⟨hB1, hB2⟩ := bitLength_bounds n n le_rfl
    have hB2 := hB2 h0
    have hBge : 54 ≤ bitLength n n := by
      by_contra hc
      have : bitLength n n ≤ 53 := by omega
      have : (2 : Nat) ^ bitLength n n ≤ 2 ^ 53 := Nat.pow_le_pow_right (by norm_num) this
      have h53 : (2 : Nat) ^ 53 = 9007199254740992 := by norm_num
      omega
    unfold round
    simp only [Nat.div_one, one_mul]
    set e := bitLength n n - 53 with he
    have hsplit : bitLength n n = e + 52 + 1 := by omega
    have hpos : 0 < 2 ^ e := by positivity
    have hq : 4503599627370496 ≤ n / 2 ^ e := by
      rw [Nat.le_div_iff_mul_le hpos]
      rw [hsplit, pow_succ, pow_add] at hB2
      have h52 : (2 : Nat) ^ 52 = 4503599627370496 := by norm_num
      rw [h52] at hB2
      have : 4503599627370496 * 2 ^ e = 2 ^ e * 4503599627370496 := Nat.mul_comm _ _
      omega
    have hk : 4503599627370496 ≤ rne n (2 ^ e) := le_trans hq (rne_ge _ _)
    have he1 : 1 ≤ e := by omega
    have h2e : 2 ≤ 2 ^ e := by
      calc 2 = 2 ^ 1 := by norm_num
        _ ≤ 2 ^ e := Nat.pow_le_pow_right (by norm_num) he1
    rcases encode_units_ge false (rne n (2 ^ e)) e hk with hinf | ⟨ex, frac, hr, hu⟩
    · exact Or.inr (Or.inl hinf)
    · refine Or.inr (Or.inr ⟨ex, frac, hr, ?_⟩)
      have : 4503599627370496 * 2 ≤ 4503599627370496 * 2 ^ e := Nat.mul_le_mul_left _ h2e
      omega

/-- A price that passed `val <= 0` is NaN, `+Inf` or at least one unit. -/
theorem atLeast_one_of_not_le (p : F64) (h : le p zero = false) : AtLeast 1 p := by
  cases p with
  | nan => exact Or.inl rfl
  | inf neg =>
    cases neg
    · exact Or.inr (Or.inl rfl)
    · simp [le, zero] at h
  | fin neg ex frac =>
    have h0 : sunits false 0 0 = 0 := by decide
    simp only [le, zero, h0, decide_eq_false_iff_not, not_le] at h
    cases neg
    · refine Or.inr (Or.inr ⟨ex, frac, rfl, ?_⟩)
      simp only [sunits, Bool.false_eq_true, if_false] at h
      omega
    · simp only [sunits, if_true] at h
      omega

theorem add_atLeast (j : Nat) (a p : F64) (hj : j + 1 ≤ 9007199254740992)
    (ha : AtLeast j a) (hp : AtLeast 1 p) : AtLeast (j + 1) (add a p) := by
  rcases ha with rfl | rfl | ⟨ea, fa, rfl, hua⟩
  · exact Or.inl (by cases p <;> rfl)
  · rcases hp with rfl | rfl | ⟨ep, fp, rfl, _⟩
    · exact Or.inl rfl
    · exact Or.inr (Or.inl rfl)
    · exact Or.inr (Or.inl rfl)
  · rcases hp with rfl | rfl | ⟨ep, fp, rfl, hup⟩
    · exact Or.inl rfl
    · exact Or.inr (Or.inl rfl)
    · rw [add_fin_nonneg]
      exact round_atLeast _ _ hj (by omega)

theorem foldl_add_atLeast (prices : List F64) (j : Nat) (acc : F64)
    (hj : j + prices.length ≤ 9007199254740992) (hacc : AtLeast j acc)
    (hp : ∀ p ∈ prices, AtLeast 1 p) :
    AtLeast (j + prices.length) (prices.foldl (· + ·) acc) := by
  induction prices generalizing j acc with
  | nil => simpa using hacc
  | cons p ps ih =>
    simp only [List.length_cons] at hj ⊢
    rw [List.foldl_cons, add_def]
    have := ih (j + 1) (add acc p) (by omega)
      (add_atLeast j acc p (by omega) hacc (hp p (List.mem_cons_self _ _)))
      (fun q hq => hp q (List.mem_cons_of_mem _ hq))
    rw [show j + (ps.length + 1) = j + 1 + ps.length by omega]
    exact this

theorem encode_isZero (neg : Bool) (k e : Nat) (hk : 1 ≤ k) :
    (encode neg k e).isZero = false := by
  unfold encode
  split_ifs with h1 h2 h3 h4
  · simp [isZero, units]
    omega
  · simp [isZero, units]
  · rfl
  · simp [isZero, units]
  · rfl

/-- Rounding a magnitude of at least one unit (`n / d ≥ 1`) does not give a zero. -/
theorem round_isZero (neg : Bool) (n d : Nat) (hd : 0 < d) (h : d ≤ n) :
    (round neg n d).isZero = false := by
  unfold round
  apply encode_isZero
  set q := n / d with hq
  have hq1 : 1 ≤ q := (Nat.one_le_div_iff hd).mpr h
  have hq0 : q ≠ 0 := by omega
  obtain ⟨_, hB2⟩ := bitLength_bounds q q le_rfl
  have hB2 := hB2 hq0
  set e := bitLength q q - 53 with he
  have hpe : 2 ^ e ≤ q := by
    by_cases hB : bitLength q q = 0
    · have : e = 0 := by omega
      rw [this]
      simpa using hq1
    · have hsplit : bitLength q q = (bitLength q q - 1) + 1 := by omega
      rw [hsplit, pow_succ] at hB2
      have : 2 ^ e ≤ 2 ^ (bitLength q q - 1) := Nat.pow_le_pow_right (by norm_num) (by omega)
      omega
  have hdq : d * q ≤ n := Nat.mul_div_le n d
  have hle : d * 2 ^ e ≤ n := le_trans (Nat.mul_le_mul_left d hpe) hdq
  have hpos : 0 < d * 2 ^ e := by positivity
  exact le_trans ((Nat.one_le_div_iff hpos).mpr hle) (rne_ge _ _)

theorem ofNat_units (k : Nat) (hk : k < 9007199254740992) :
    ∃ ex frac, ofNat k = fin false ex frac ∧ units ex frac = k * 2 ^ 1074 :=
  round_exact false k 1074 hk (by omega)

theorem div_ofNat_isZero (k : Nat) (total : F64) (hk1 : 1 ≤ k) (hk : k < 9007199254740992)
    (ht : AtLeast k total) : (div total (ofNat k)).isZero = false := by
  obtain ⟨ex, frac, ho, hu⟩ := ofNat_units k hk
  rw [ho]
  have hpos : 0 < 2 ^ 1074 := by positivity
  have hub : units ex frac ≠ 0 := by
    rw [hu]
    exact Nat.mul_ne_zero (by omega) (by omega)
  rcases ht with rfl | rfl | ⟨et, ft, rfl, hut⟩
  · rfl
  · rfl
  · simp only [div, hub, if_false]
    apply round_isZero _ _ _ (Nat.pos_of_ne_zero hub)
    rw [hu]
    exact Nat.mul_le_mul_right _ hut

theorem rne_mul_right (a b c : Nat) (hc : 0 < c) : rne (a * c) (b * c) = rne a b := by
  unfold rne
  rw [Nat.mul_div_mul_right a b hc, Nat.mul_mod_mul_right]
  have h1 : 2 * (a % b * c) < b * c ↔ 2 * (a % b) < b := by
    rw [← Nat.mul_assoc]
    exact Nat.mul_lt_mul_right hc
  have h2 : b * c < 2 * (a % b * c) ↔ b < 2 * (a % b) := by
    rw [← Nat.mul_assoc]
    exact Nat.mul_lt_mul_right hc
  simp only [h1, h2]

/-- Rounding depends on the quotient only. -/
theorem round_mul_right (neg : Bool) (n d c : Nat) (hc : 0 < c) :
    round neg (n * c) (d * c) = round neg n d := by
  unfold round
  rw [Nat.mul_div_mul_right n d hc]
  simp only []
  have : d * c * 2 ^ (bitLength (n / d) (n / d) - 53)
      = d * 2 ^ (bitLength (n / d) (n / d) - 53) * c := by ring
  rw [this, rne_mul_right _ _ _ hc]

/-- On a common grid the loop's sum is the finite value whose magnitude is the
exact sum of the magnitudes. -/
theorem sumPrices_exact_units (prices : List F64) (h : ExactlySummable prices) :
    ∃ ex frac, sumPrices prices = fin false ex frac ∧
      units ex frac = (prices.map unitsOf).sum := by
  rw [sumPrices_exact prices h]
  obtain ⟨e, he, hgrid, hsum⟩ := h
  have hdvd : 2 ^ e ∣ (prices.map unitsOf).sum := by
    apply List.dvd_sum
    intro x hx
    obtain ⟨p, hp, rfl⟩ := List.mem_map.mp hx
    obtain ⟨ex, frac, rfl, hd⟩ := hgrid p hp
    exact hd
  obtain ⟨k, hk⟩ := hdvd
  have hklt : k < 9007199254740992 := by
    by_contra hc
    have h1 : 9007199254740992 ≤ k := by omega
    have h2 : 2 ^ e * 9007199254740992 ≤ 2 ^ e * k := Nat.mul_le_mul_left _ h1
    have h3 : (2 : Nat) ^ (53 + e) = 2 ^ e * 9007199254740992 := by
      rw [pow_add]
      norm_num
      ring
    omega
  obtain ⟨ex, frac, hr, hu⟩ := round_exact false k e hklt he
  rw [Nat.mul_comm, ← hk] at hr hu
  exact ⟨ex, frac, hr, hu⟩

/-- With exact summation the quotient by the count is the `float64` nearest to
the exact arithmetic mean: the sum of the magnitudes over the count, rounded once. -/
theorem mean_exact (prices : List F64) (h : ExactlySummable prices)
    (h1 : 1 ≤ prices.length) (hk : prices.length < 9007199254740992) :
    sumPrices prices / ofNat prices.length =
      round false (prices.map unitsOf).sum prices.length := by
  obtain ⟨et, ft, ht, hut⟩ := sumPrices_exact_units prices h
  obtain ⟨ex, frac, ho, hu⟩ := ofNat_units prices.length hk
  have hpos : 0 < 2 ^ 1074 := by positivity
  have hub : units ex frac ≠ 0 := by
    rw [hu]
    exact Nat.mul_ne_zero (by omega) (by omega)
  show div (sumPrices prices) (ofNat prices.length) = _
  rw [ht, ho]
  simp only [div, hub, if_false, bne_self_eq_false]
  rw [hu, hut, round_mul_right _ _ _ _ hpos]

end F64

/-! ## The loop -/

theorem accumulate_ok (acc : F64 × Nat) (price : F64) :
    accumulate acc (price, none) = (acc.1 + price, acc.2 + 1) := rfl

theorem accumulate_err (acc : F64 × Nat) (q : Quote) (h : q.2 ≠ none) :
    accumulate acc q = acc := by
  obtain ⟨price, err⟩ := q
  cases err with
  | none => exact absurd rfl h
  | some e => rfl

theorem skipped_of_err (q : Quote) (h : q.2 ≠ none) : Skipped q :=
  ⟨h, fun acc => accumulate_err acc q h⟩

theorem successes_cons_ok (price : F64) (quotes : List Quote) :
    successes ((price, none) :: quotes) = price :: successes quotes := rfl

theorem successes_cons_err (q : Quote) (quotes : List Quote) (h : q.2 ≠ none) :
    successes (q :: quotes) = successes quotes := by
  obtain ⟨price, err⟩ := q
  cases err with
  | none => exact absurd rfl h
  | some e => rfl

/-- The loop from any starting `total`, `count`: it adds the successful prices
in order and counts them. -/
theorem foldl_accumulate (quotes : List Quote) (acc : F64 × Nat) :
    quotes.foldl accumulate acc =
      ((successes quotes).foldl (· + ·) acc.1, acc.2 + (successes quotes).length) := by
  induction quotes generalizing acc with
  | nil => rfl
  | cons q quotes ih =>
    obtain ⟨price, err⟩ := q
    cases err with
    | none =>
      rw [List.foldl_cons, accumulate_ok, ih, successes_cons_ok]
      simp only [List.foldl_cons, List.length_cons]
      congr 1
      omega
    | some e =>
      rw [List.foldl_cons, accumulate_err _ _ (by simp), ih,
        successes_cons_err _ _ (by simp)]

theorem runLoop_eq (quotes : List Quote) :
    runLoop quotes = (sumPrices (successes quotes), (successes quotes).length) := by
  unfold runLoop sumPrices
  rw [foldl_accumulate]
  simp

theorem cycle_eq (avgPrice : F64) (quotes : List Quote) :
    cycle avgPrice quotes =
      if (successes quotes).length > 0 then
        sumPrices (successes quotes) / F64.ofNat (successes quotes).length
      else avgPrice := by
  unfold cycle publish
  rw [runLoop_eq]

theorem successes_eq_nil (quotes : List Quote) (h : ∀ q ∈ quotes, q.2 ≠ none) :
    successes quotes = [] := by
  induction quotes with
  | nil => rfl
  | cons q quotes ih =>
    rw [successes_cons_err q quotes (h q (List.mem_cons_self _ _))]
    exact ih (fun q' hq' => h q' (List.mem_cons_of_mem _ hq'))

theorem mainCycle_of_fetchAll (avgPrice : F64) (r : Responses) (quotes : List Quote)
    (h : fetchAll r = .ok quotes) : mainCycle avgPrice r = .ok (cycle avgPrice quotes) := by
  unfold mainCycle
  rw [h]

/-- A failed adapter leaves what the other adapters contribute as it is. -/
theorem runLoop_skip (q : Quote) (h : q.2 ≠ none) (before after : List Quote) :
    runLoop (before ++ q :: after) = runLoop (before ++ after) := by
  unfold runLoop
  rw [List.foldl_append, List.foldl_append, List.foldl_cons, accumulate_err _ q h]

/-! ## `validatePrice` -/

theorem le_zero_of_isPositiveFinite (price : F64) (h : price.isPositiveFinite = true) :
    F64.le price F64.zero = false := by
  cases price with
  | nan => rfl
  | inf neg => simp [F64.isPositiveFinite] at h
  | fin neg ex frac =>
    have h0 : F64.sunits false 0 0 = 0 := by decide
    simp only [F64.isPositiveFinite, decide_eq_true_eq] at h
    simp only [F64.le, F64.zero, h0, decide_eq_false_iff_not, not_le]
    exact h

theorem validatePrice_of_le (name : String) (price : F64)
    (h : F64.le price F64.zero = true) :
    validatePrice name (.float64 price) = some (.invalidValue name price) := by
  simp [validatePrice, h]

theorem validatePrice_of_not_le (name : String) (price : F64)
    (h : F64.le price F64.zero = false) :
    validatePrice name (.float64 price) = none := by
  simp [validatePrice, h]

/-- The values for which `val <= 0` is false: the positive finite ones, `+Inf`
and NaN. -/
theorem le_zero_eq_false_iff (v : F64) :
    F64.le v F64.zero = false ↔
      (v.isPositiveFinite = true ∨ v = F64.inf false ∨ v = F64.nan) := by
  cases v with
  | nan => simp [F64.le]
  | inf neg => cases neg <;> simp [F64.le, F64.zero, F64.isPositiveFinite]
  | fin neg ex frac =>
    have h0 : F64.sunits false 0 0 = 0 := by decide
    simp [F64.le, F64.zero, F64.isPositiveFinite, h0]

theorem string_length_eq_zero (s : String) : s.length = 0 ↔ s = "" := by
  constructor
  · intro h
    have hd : s.data = [] := List.length_eq_zero.mp h
    exact String.ext hd
  · intro h
    subst h
    rfl

theorem parseFloat_empty : strconv.ParseFloat "" = (F64.zero, some NumError.ErrSyntax) := by
  decide

theorem ne_empty_of_parseFloat (s : String) (price : F64)
    (h : strconv.ParseFloat s = (price, none)) : s ≠ "" := by
  intro hs
  subst hs
  rw [parseFloat_empty] at h
  exact absurd (congrArg Prod.snd h) (by simp)

/-! ## The cycle: C1, C2, C10 -/

/-- C1, as the code has it.  In a cycle in which at least one adapter succeeds,
`avgPrice` afterwards is the `float64` mean of exactly the successful prices:
their `float64` sum, added in call order from `0.0` with every addition rounded,
divided by `float64` of their number.  A failed adapter adds nothing to the sum
and nothing to the count.  Stated for any list of adapter results, and for the
cycle of `main` on any responses that give those results.  When no addition
rounds (the prices are exactly summable) the published value is the `float64`
nearest to the exact arithmetic mean, the sum of the prices over their number. -/
theorem C1_cycle_publishes_mean_of_successes (avgPrice : F64) (quotes : List Quote)
    (hsome : successes quotes ≠ []) :
    runLoop quotes = (sumPrices (successes quotes), (successes quotes).length) ∧
    cycle avgPrice quotes =
      sumPrices (successes quotes) / F64.ofNat (successes quotes).length ∧
    (∀ r : Responses, fetchAll r = .ok quotes →
      mainCycle avgPrice r =
        .ok (sumPrices (successes quotes) / F64.ofNat (successes quotes).length)) ∧
    (ExactlySummable (successes quotes) →
      (successes quotes).length < 9007199254740992 →
      cycle avgPrice quotes =
        F64.round false ((successes quotes).map F64.unitsOf).sum (successes quotes).length) := by
  have hlen : (successes quotes).length > 0 := List.length_pos.mpr hsome
  have hc : cycle avgPrice quotes =
      sumPrices (successes quotes) / F64.ofNat (successes quotes).length := by
    rw [cycle_eq, if_pos hlen]
  refine ⟨runLoop_eq quotes, hc, ?_, ?_⟩
  · intro r hr
    rw [mainCycle_of_fetchAll avgPrice r quotes hr, hc]
  · intro hx hk
    rw [hc, F64.mean_exact _ hx hlen hk]

/-- C1 at a concrete cycle: two adapters succeed with 67890.5 and one fails;
the published value is `(0.0 + 67890.5 + 67890.5) / 2`. -/
theorem C1_cycle_publishes_mean_of_successes_witness :
    successes [(price67890_5, none), (F64.zero, some (Error.accessField "Bitget")),
        (price67890_5, none)] = [price67890_5, price67890_5] ∧
    cycle F64.zero [(price67890_5, none), (F64.zero, some (Error.accessField "Bitget")),
        (price67890_5, none)] =
      sumPrices [price67890_5, price67890_5] / F64.ofNat 2 :=
  ⟨by decide,
    (C1_cycle_publishes_mean_of_successes F64.zero
      [(price67890_5, none), (F64.zero, some (Error.accessField "Bitget")),
        (price67890_5, none)] (by decide)).2.1⟩

/-- C1 as stated fails: the published value is not the arithmetic mean of the
successful prices.  When all twelve providers answer 0.1 the mean is 0.1, and
the cycle of `main` publishes 0.09999999999999999, one step below it.  The
prices 67926.97, 67915.60 and 67966.48 publish 67936.34999999999, while the
`float64` nearest to their mean is 67936.35.  Two prices of the largest finite
`float64` publish `+Inf`, while their mean is that `float64` itself. -/
theorem C1_counterexample :
    (strconv.ParseFloat "0.1" = (price0_1, none) ∧
      fetchAll (everyProvider price0_1 "0.1") = .ok (List.replicate 12 (price0_1, none)) ∧
      ((List.replicate 12 price0_1).map F64.unitsOf).sum = 12 * F64.unitsOf price0_1 ∧
      mainCycle F64.zero (everyProvider price0_1 "0.1")
        = .ok (F64.fin false 1019 2702159776422297) ∧
      F64.fin false 1019 2702159776422297 ≠ price0_1) ∧
    (strconv.ParseFloat "67926.97" = (price67926_97, none) ∧
      strconv.ParseFloat "67915.60" = (price67915_60, none) ∧
      strconv.ParseFloat "67966.48" = (price67966_48, none) ∧
      cycle F64.zero [(price67926_97, none), (price67915_60, none), (price67966_48, none)]
        = F64.fin false 1039 164950795983257 ∧
      F64.round false
        (F64.unitsOf price67926_97 + F64.unitsOf price67915_60 + F64.unitsOf price67966_48) 3
        = F64.fin false 1039 164950795983258) ∧
    (strconv.ParseFloat "1.7976931348623157e308" = (maxFloat64, none) ∧
      cycle F64.zero [(maxFloat64, none), (maxFloat64, none)] = F64.inf false ∧
      F64.round false (F64.unitsOf maxFloat64 + F64.unitsOf maxFloat64) 2 = maxFloat64) := by
  decide!

/-- C2. If every adapter returns an error in a cycle, `count` stays 0 and
`avgPrice` after the cycle is `avgPrice` before it. -/
theorem C2_all_failed_keeps_avgPrice (avgPrice : F64) (quotes : List Quote)
    (hfail : ∀ q ∈ quotes, q.2 ≠ none) :
    (runLoop quotes).2 = 0 ∧
    cycle avgPrice quotes = avgPrice ∧
    ∀ r : Responses, fetchAll r = .ok quotes → mainCycle avgPrice r = .ok avgPrice := by
  have hnil : successes quotes = [] := successes_eq_nil quotes hfail
  have hc : cycle avgPrice quotes = avgPrice := by
    rw [cycle_eq, hnil]
    simp
  refine ⟨by rw [runLoop_eq, hnil]; rfl, hc, ?_⟩
  intro r hr
  rw [mainCycle_of_fetchAll avgPrice r quotes hr, hc]

/-- C2 at a concrete cycle: all twelve providers answer 503 (XT answers an
empty price string), and a published 67890.5 stays. -/
theorem C2_all_failed_keeps_avgPrice_witness :
    mainCycle price67890_5 (onlyXT "") = .ok price67890_5 :=
  (C2_all_failed_keeps_avgPrice price67890_5
    [(F64.zero, some (.request "Bitfinex" (.statusCode "https://api.bitfinex.com/v2/ticker/tBTCUSD" 503))),
     fetchBitgetPrice (onlyXT "").bitget, fetchBitruePrice (onlyXT "").bitrue,
     fetchBTSEPrice (onlyXT "").btse, fetchCoinbasePrice (onlyXT "").coinbase,
     fetchCryptoPrice (onlyXT "").crypto, fetchGatePrice (onlyXT "").gate,
     fetchHuobiPrice (onlyXT "").huobi, fetchKrakenPrice (onlyXT "").kraken,
     fetchKuCoinPrice (onlyXT "").kucoin, fetchOKXPrice (onlyXT "").okx,
     fetchXTPrice (onlyXT "").xt]
    (by decide)).2.2 (onlyXT "") rfl

/-- C10. `total` and `count` start from `0.0` and `0` in every cycle, so a
cycle's result does not depend on the cycles before it: running the cycle a
second time on the same responses leaves `avgPrice` as the first run left it
(and a first run that panics has no second). -/
theorem C10_repeated_cycle_same_avgPrice (avgPrice : F64) (r : Responses)
    (quotes : List Quote) :
    cycle (cycle avgPrice quotes) quotes = cycle avgPrice quotes ∧
    runCycles avgPrice [r, r] = runCycles avgPrice [r] := by
  have hc : ∀ a : F64, cycle (cycle a quotes) quotes = cycle a quotes := by
    intro a
    rw [cycle_eq (cycle a quotes), cycle_eq a]
    split_ifs <;> rfl
  refine ⟨hc avgPrice, ?_⟩
  unfold runCycles runCycles runCycles mainCycle
  cases hf : fetchAll r with
  | error p => rfl
  | ok qs =>
    have hq : ∀ a : F64, cycle (cycle a qs) qs = cycle a qs := by
      intro a
      rw [cycle_eq (cycle a qs), cycle_eq a]
      split_ifs <;> rfl
    simp only [hf, hq]

/-! ## The adapters: C3, C4, C6, C7 -/

/-- C3, as the code has it.  For each of the eleven adapters other than XT: a
decoded response whose extracted price is `<= 0` (negative, a zero, or `-Inf`)
makes the adapter return a non-nil error, and the loop then leaves `total` and
`count` untouched.  (NaN and `+Inf` are not `<= 0` and are not rejected.) -/
theorem C3_nonpositive_price_rejected (price : F64)
    (hle : F64.le price F64.zero = true) :
    (∀ resp : List F64, resp[6]? = some price →
      ∃ q, fetchBitfinexPrice (.ok resp) = .ok q ∧ Skipped q) ∧
    (∀ (first : fetchBitgetPrice.Ticker) (rest : List fetchBitgetPrice.Ticker),
      strconv.ParseFloat first.LastPr = (price, none) →
      Skipped (fetchBitgetPrice (.ok ⟨first :: rest⟩))) ∧
    (∀ s : String, strconv.ParseFloat s = (price, none) →
      Skipped (fetchBitruePrice (.ok ⟨s⟩))) ∧
    (∀ rest : List fetchBTSEPrice.ApiResponse,
      Skipped (fetchBTSEPrice (.ok (⟨price⟩ :: rest)))) ∧
    (∀ s : String, strconv.ParseFloat s = (price, none) →
      Skipped (fetchCoinbasePrice (.ok ⟨s⟩))) ∧
    (∀ (first : fetchCryptoPrice.Ticker) (rest : List fetchCryptoPrice.Ticker),
      strconv.ParseFloat first.A = (price, none) →
      Skipped (fetchCryptoPrice (.ok ⟨⟨first :: rest⟩⟩))) ∧
    (∀ s : String, strconv.ParseFloat s = (price, none) →
      Skipped (fetchGatePrice (.ok ⟨s⟩))) ∧
    (∀ rest : List fetchHuobiPrice.Trade,
      Skipped (fetchHuobiPrice (.ok ⟨⟨⟨price⟩ :: rest⟩⟩))) ∧
    (∀ (s : String) (rest : List String), strconv.ParseFloat s = (price, none) →
      Skipped (fetchKrakenPrice (.ok ⟨⟨⟨s :: rest⟩⟩⟩))) ∧
    (∀ s : String, strconv.ParseFloat s = (price, none) →
      Skipped (fetchKuCoinPrice (.ok ⟨⟨s⟩⟩))) ∧
    (∀ (first : fetchOKXPrice.Ticker) (rest : List fetchOKXPrice.Ticker),
      strconv.ParseFloat first.Last = (price, none) →
      Skipped (fetchOKXPrice (.ok ⟨first :: rest⟩))) := by
  refine ⟨?_, ?_, ?_, ?_, ?_, ?_, ?_, ?_, ?_, ?_, ?_⟩
  · intro resp h
    have hlen : resp.length ≠ 0 := by
      intro h0
      rw [List.length_eq_zero.mp h0] at h
      simp at h
    refine ⟨(F64.zero, some (.invalidPrice "Bitfinex" price)), ?_, skipped_of_err _ (by simp)⟩
    simp only [fetchBitfinexPrice, h, validatePrice_of_le _ _ hle, hlen, if_false]
  · intro first rest h
    apply skipped_of_err
    simp only [fetchBitgetPrice, h, validatePrice_of_le _ _ hle]
    split_ifs <;> simp
  · intro s h
    apply skipped_of_err
    simp only [fetchBitruePrice, h, validatePrice_of_le _ _ hle]
    split_ifs <;> simp
  · intro rest
    apply skipped_of_err
    simp [fetchBTSEPrice, validatePrice_of_le _ _ hle]
  · intro s h
    apply skipped_of_err
    simp only [fetchCoinbasePrice, h, validatePrice_of_le _ _ hle]
    split_ifs <;> simp
  · intro first rest h
    apply skipped_of_err
    simp only [fetchCryptoPrice, h, validatePrice_of_le _ _ hle]
    split_ifs <;> simp
  · intro s h
    apply skipped_of_err
    simp only [fetchGatePrice, h, validatePrice_of_le _ _ hle]
    split_ifs <;> simp
  · intro rest
    apply skipped_of_err
    simp [fetchHuobiPrice, validatePrice_of_le _ _ hle]
  · intro s rest h
    apply skipped_of_err
    simp only [fetchKrakenPrice, h, validatePrice_of_le _ _ hle]
    split_ifs <;> simp
  · intro s h
    apply skipped_of_err
    simp only [fetchKuCoinPrice, h, validatePrice_of_le _ _ hle]
    split_ifs <;> simp
  · intro first rest h
    apply skipped_of_err
    simp only [fetchOKXPrice, h, validatePrice_of_le _ _ hle]
    split_ifs <;> simp

/-- C3 at a concrete response: Bitget answers `{"data":[{"lastPr":"-5"}]}`; the
adapter returns an error and the loop skips it. -/
theorem C3_nonpositive_price_rejected_witness :
    strconv.ParseFloat "-5" = (F64.fin true 1025 1125899906842624, none) ∧
    Skipped (fetchBitgetPrice (.ok ⟨[⟨"-5"⟩]⟩)) :=
  ⟨by decide!,
    (C3_nonpositive_price_rejected (F64.fin true 1025 1125899906842624) (by decide!)).2.1
      ⟨"-5"⟩ [] (by decide!)⟩

/-- C3 as stated fails at two inputs.  Coinbase answering `{"price":"NaN"}`:
the extracted price is NaN, not finite, and the adapter returns it with a nil
error, so the loop adds it.  XT answering `{"result":[{"c":"-5"}]}`: the
extracted price is -5, which is `<= 0`, and the adapter returns it with a nil
error, so the loop adds it and counts it. -/
theorem C3_counterexample :
    (strconv.ParseFloat "NaN" = (F64.nan, none) ∧
      F64.isFinite F64.nan = false ∧
      fetchCoinbasePrice (.ok ⟨"NaN"⟩) = (F64.nan, none) ∧
      accumulate (F64.zero, 0) (fetchCoinbasePrice (.ok ⟨"NaN"⟩)) = (F64.nan, 1)) ∧
    (strconv.ParseFloat "-5" = (F64.fin true 1025 1125899906842624, none) ∧
      F64.le (F64.fin true 1025 1125899906842624) F64.zero = true ∧
      fetchXTPrice (.ok ⟨[⟨"-5"⟩]⟩) = (F64.fin true 1025 1125899906842624, none) ∧
      accumulate (F64.zero, 0) (fetchXTPrice (.ok ⟨[⟨"-5"⟩]⟩)) =
        (F64.fin true 1025 1125899906842624, 1)) := by
  decide!

/-- C4 fails on the code.  For a decoded Bitfinex array of 1 to 6 numbers the
adapter passes the `len(resp) == 0` guard and evaluates `resp[6]`, which panics
with an index out of range; the panic is not recovered, so the cycle of `main`
does not complete.  Shown for every array of each such length. -/
theorem C4_bitfinex_short_array_panics (a b c d e f : F64) (avgPrice : F64) (xt : String) :
    fetchBitfinexPrice (.ok [a]) = .error (.indexOutOfRange 6 1) ∧
    fetchBitfinexPrice (.ok [a, b]) = .error (.indexOutOfRange 6 2) ∧
    fetchBitfinexPrice (.ok [a, b, c]) = .error (.indexOutOfRange 6 3) ∧
    fetchBitfinexPrice (.ok [a, b, c, d]) = .error (.indexOutOfRange 6 4) ∧
    fetchBitfinexPrice (.ok [a, b, c, d, e]) = .error (.indexOutOfRange 6 5) ∧
    fetchBitfinexPrice (.ok [a, b, c, d, e, f]) = .error (.indexOutOfRange 6 6) ∧
    mainCycle avgPrice (withBitfinex [a] xt) = .error (.indexOutOfRange 6 1) ∧
    runCycles avgPrice [withBitfinex [a] xt, onlyXT xt] = .error (.indexOutOfRange 6 1) :=
  ⟨rfl, rfl, rfl, rfl, rfl, rfl, rfl, rfl⟩

/-- C6, as the code has it.  An empty array (or an absent nested object, which
decodes to one) gives the missing-field error in every array-shaped adapter.
An empty price string gives the empty-field error where the string is an
element of an array (Bitget, Crypto.com, Kraken, OKX, XT) and the missing-field
error where it is a plain field (Bitrue, Coinbase, Gate, KuCoin: there the
`len(...) == 0` guard comes first).  A non-empty string that `ParseFloat`
refuses gives the format error in all nine string-priced adapters.  Any failed
adapter is skipped by the loop and leaves the contribution of the adapters
before and after it unchanged. -/
theorem C6_malformed_response_classified :
    fetchBitfinexPrice (.ok []) = .ok (F64.zero, some (.accessField "Bitfinex")) ∧
    fetchBitgetPrice (.ok ⟨[]⟩) = (F64.zero, some (.accessField "Bitget")) ∧
    fetchBTSEPrice (.ok []) = (F64.zero, some (.accessField "BTSE")) ∧
    fetchCryptoPrice (.ok ⟨⟨[]⟩⟩) = (F64.zero, some (.accessField "Crypto")) ∧
    fetchHuobiPrice (.ok ⟨⟨[]⟩⟩) = (F64.zero, some (.accessField "Huobi")) ∧
    fetchKrakenPrice (.ok ⟨⟨⟨[]⟩⟩⟩) = (F64.zero, some (.accessField "Kraken")) ∧
    fetchOKXPrice (.ok ⟨[]⟩) = (F64.zero, some (.accessField "OKX")) ∧
    fetchXTPrice (.ok ⟨[]⟩) = (F64.zero, some (.accessField "XT")) ∧
    (∀ (rest : List fetchBitgetPrice.Ticker), fetchBitgetPrice (.ok ⟨⟨""⟩ :: rest⟩) = (F64.zero, some (.emptyField "Bitget"))) ∧
    (fetchBitruePrice (.ok ⟨""⟩) = (F64.zero, some (.accessField "Bitrue"))) ∧
    (fetchCoinbasePrice (.ok ⟨""⟩) = (F64.zero, some (.accessField "Coinbase"))) ∧
    (∀ (rest : List fetchCryptoPrice.Ticker), fetchCryptoPrice (.ok ⟨⟨⟨""⟩ :: rest⟩⟩) = (F64.zero, some (.emptyField "Crypto"))) ∧
    (fetchGatePrice (.ok ⟨""⟩) = (F64.zero, some (.accessField "Gate"))) ∧
    (∀ (rest : List String), fetchKrakenPrice (.ok ⟨⟨⟨"" :: rest⟩⟩⟩) = (F64.zero, some (.emptyField "Kraken"))) ∧
    (fetchKuCoinPrice (.ok ⟨⟨""⟩⟩) = (F64.zero, some (.accessField "KuCoin"))) ∧
    (∀ (rest : List fetchOKXPrice.Ticker), fetchOKXPrice (.ok ⟨⟨""⟩ :: rest⟩) = (F64.zero, some (.emptyField "OKX"))) ∧
    (∀ (rest : List fetchXTPrice.Ticker), fetchXTPrice (.ok ⟨⟨""⟩ :: rest⟩) = (F64.zero, some (.emptyField "XT"))) ∧
    (∀ (s : String) (v : F64) (e : NumError) (rest : List fetchBitgetPrice.Ticker), s ≠ "" →
      strconv.ParseFloat s = (v, some e) →
      fetchBitgetPrice (.ok ⟨⟨s⟩ :: rest⟩) = (F64.zero, some (.convert "Bitget" e))) ∧
    (∀ (s : String) (v : F64) (e : NumError) , s ≠ "" →
      strconv.ParseFloat s = (v, some e) →
      fetchBitruePrice (.ok ⟨s⟩) = (F64.zero, some (.convert "Bitrue" e))) ∧
    (∀ (s : String) (v : F64) (e : NumError) , s ≠ "" →
      strconv.ParseFloat s = (v, some e) →
      fetchCoinbasePrice (.ok ⟨s⟩) = (F64.zero, some (.convert "Coinbase" e))) ∧
    (∀ (s : String) (v : F64) (e : NumError) (rest : List fetchCryptoPrice.Ticker), s ≠ "" →
      strconv.ParseFloat s = (v, some e) →
      fetchCryptoPrice (.ok ⟨⟨⟨s⟩ :: rest⟩⟩) = (F64.zero, some (.convert "Crypto" e))) ∧
    (∀ (s : String) (v : F64) (e : NumError) , s ≠ "" →
      strconv.ParseFloat s = (v, some e) →
      fetchGatePrice (.ok ⟨s⟩) = (F64.zero, some (.convert "Gate" e))) ∧
    (∀ (s : String) (v : F64) (e : NumError) (rest : List String), s ≠ "" →
      strconv.ParseFloat s = (v, some e) →
      fetchKrakenPrice (.ok ⟨⟨⟨s :: rest⟩⟩⟩) = (F64.zero, some (.convert "Kraken" e))) ∧
    (∀ (s : String) (v : F64) (e : NumError) , s ≠ "" →
      strconv.ParseFloat s = (v, some e) →
      fetchKuCoinPrice (.ok ⟨⟨s⟩⟩) = (F64.zero, some (.convert "KuCoin" e))) ∧
    (∀ (s : String) (v : F64) (e : NumError) (rest : List fetchOKXPrice.Ticker), s ≠ "" →
      strconv.ParseFloat s = (v, some e) →
      fetchOKXPrice (.ok ⟨⟨s⟩ :: rest⟩) = (F64.zero, some (.convert "OKX" e))) ∧
    (∀ (s : String) (v : F64) (e : NumError) (rest : List fetchXTPrice.Ticker), s ≠ "" →
      strconv.ParseFloat s = (v, some e) →
      fetchXTPrice (.ok ⟨⟨s⟩ :: rest⟩) = (F64.zero, some (.convert "XT" e))) ∧
    (∀ (q : Quote) (before after : List Quote), q.2 ≠ none →
      Skipped q ∧ runLoop (before ++ q :: after) = runLoop (before ++ after)) := by
  refine ⟨rfl, rfl, rfl, rfl, rfl, rfl, rfl, rfl, ?_, ?_, ?_, ?_, ?_, ?_, ?_, ?_, ?_, ?_, ?_, ?_, ?_, ?_, ?_, ?_, ?_, ?_, ?_⟩
  · intro rest
    rfl
  · rfl
  · rfl
  · intro rest
    rfl
  · rfl
  · intro rest
    rfl
  · rfl
  · intro rest
    rfl
  · intro rest
    rfl
  · intro s v e rest hs h
    simp [fetchBitgetPrice, h, hs, string_length_eq_zero]
  · intro s v e hs h
    simp [fetchBitruePrice, h, hs, string_length_eq_zero]
  · intro s v e hs h
    simp [fetchCoinbasePrice, h, hs, string_length_eq_zero]
  · intro s v e rest hs h
    simp [fetchCryptoPrice, h, hs, string_length_eq_zero]
  · intro s v e hs h
    simp [fetchGatePrice, h, hs, string_length_eq_zero]
  · intro s v e rest hs h
    simp [fetchKrakenPrice, h, hs, string_length_eq_zero]
  · intro s v e hs h
    simp [fetchKuCoinPrice, h, hs, string_length_eq_zero]
  · intro s v e rest hs h
    simp [fetchOKXPrice, h, hs, string_length_eq_zero]
  · intro s v e rest hs h
    simp [fetchXTPrice, h, hs, string_length_eq_zero]
  · intro q before after h
    exact ⟨skipped_of_err q h, runLoop_skip q h before after⟩

/-- C6 as stated fails for the plain-field adapters: Bitrue answering
`{"price":""}` (an empty string price field) gets the missing-field error, not
the empty-field error; so do Coinbase, Gate and KuCoin. -/
theorem C6_counterexample :
    fetchBitruePrice (.ok ⟨""⟩) = (F64.zero, some (.accessField "Bitrue")) ∧
    fetchCoinbasePrice (.ok ⟨""⟩) = (F64.zero, some (.accessField "Coinbase")) ∧
    fetchGatePrice (.ok ⟨""⟩) = (F64.zero, some (.accessField "Gate")) ∧
    fetchKuCoinPrice (.ok ⟨⟨""⟩⟩) = (F64.zero, some (.accessField "KuCoin")) ∧
    Error.accessField "Bitrue" ≠ Error.emptyField "Bitrue" := by
  decide

/-- C7. For each of the twelve adapters, a decoded response of the provider's
shape whose price field holds a positive finite `price` (as a number, or as a
string that `ParseFloat` reads as `price`) makes the adapter return exactly
`price` with a nil error. -/
theorem C7_adapter_returns_price (price : F64) (hp : price.isPositiveFinite = true) :
    (∀ resp : List F64, resp[6]? = some price →
      fetchBitfinexPrice (.ok resp) = .ok (price, none)) ∧
    (∀ (s : String) (rest : List fetchBitgetPrice.Ticker), strconv.ParseFloat s = (price, none) →
      fetchBitgetPrice (.ok ⟨⟨s⟩ :: rest⟩) = (price, none)) ∧
    (∀ (s : String), strconv.ParseFloat s = (price, none) →
      fetchBitruePrice (.ok ⟨s⟩) = (price, none)) ∧
    (∀ rest : List fetchBTSEPrice.ApiResponse,
      fetchBTSEPrice (.ok (⟨price⟩ :: rest)) = (price, none)) ∧
    (∀ (s : String), strconv.ParseFloat s = (price, none) →
      fetchCoinbasePrice (.ok ⟨s⟩) = (price, none)) ∧
    (∀ (s : String) (rest : List fetchCryptoPrice.Ticker), strconv.ParseFloat s = (price, none) →
      fetchCryptoPrice (.ok ⟨⟨⟨s⟩ :: rest⟩⟩) = (price, none)) ∧
    (∀ (s : String), strconv.ParseFloat s = (price, none) →
      fetchGatePrice (.ok ⟨s⟩) = (price, none)) ∧
    (∀ rest : List fetchHuobiPrice.Trade,
      fetchHuobiPrice (.ok ⟨⟨⟨price⟩ :: rest⟩⟩) = (price, none)) ∧
    (∀ (s : String) (rest : List String), strconv.ParseFloat s = (price, none) →
      fetchKrakenPrice (.ok ⟨⟨⟨s :: rest⟩⟩⟩) = (price, none)) ∧
    (∀ (s : String), strconv.ParseFloat s = (price, none) →
      fetchKuCoinPrice (.ok ⟨⟨s⟩⟩) = (price, none)) ∧
    (∀ (s : String) (rest : List fetchOKXPrice.Ticker), strconv.ParseFloat s = (price, none) →
      fetchOKXPrice (.ok ⟨⟨s⟩ :: rest⟩) = (price, none)) ∧
    (∀ (s : String) (rest : List fetchXTPrice.Ticker), strconv.ParseFloat s = (price, none) →
      fetchXTPrice (.ok ⟨⟨s⟩ :: rest⟩) = (price, none)) := by
  have hv : ∀ name : String, validatePrice name (.float64 price) = none :=
    fun name => validatePrice_of_not_le name price (le_zero_of_isPositiveFinite price hp)
  refine ⟨?_, ?_, ?_, ?_, ?_, ?_, ?_, ?_, ?_, ?_, ?_, ?_⟩
  · intro resp h
    have hlen : resp.length ≠ 0 := by
      intro h0
      rw [List.length_eq_zero.mp h0] at h
      simp at h
    simp only [fetchBitfinexPrice, h, hv, hlen, if_false]
  · intro s rest h
    have hne := ne_empty_of_parseFloat s price h
    simp [fetchBitgetPrice, h, hne, hv, string_length_eq_zero]
  · intro s h
    have hne := ne_empty_of_parseFloat s price h
    simp [fetchBitruePrice, h, hne, hv, string_length_eq_zero]
  · intro rest
    simp [fetchBTSEPrice, hv]
  · intro s h
    have hne := ne_empty_of_parseFloat s price h
    simp [fetchCoinbasePrice, h, hne, hv, string_length_eq_zero]
  · intro s rest h
    have hne := ne_empty_of_parseFloat s price h
    simp [fetchCryptoPrice, h, hne, hv, string_length_eq_zero]
  · intro s h
    have hne := ne_empty_of_parseFloat s price h
    simp [fetchGatePrice, h, hne, hv, string_length_eq_zero]
  · intro rest
    simp [fetchHuobiPrice, hv]
  · intro s rest h
    have hne := ne_empty_of_parseFloat s price h
    simp [fetchKrakenPrice, h, hne, hv, string_length_eq_zero]
  · intro s h
    have hne := ne_empty_of_parseFloat s price h
    simp [fetchKuCoinPrice, h, hne, hv, string_length_eq_zero]
  · intro s rest h
    have hne := ne_empty_of_parseFloat s price h
    simp [fetchOKXPrice, h, hne, hv, string_length_eq_zero]
  · intro s rest h
    have hne := ne_empty_of_parseFloat s price h
    simp [fetchXTPrice, h, hne, hv, string_length_eq_zero]

/-- C7 at the three fixtures of the specification: the Bitfinex array
`[0,0,0,0,0,0,67890.5,0,0,0]`, Coinbase `{"price":"67890.50"}` and Kraken
`{"result":{"XXBTZUSD":{"a":["67890.5","1","1.0"]}}}` each give 67890.5, the
`float64` whose value is 135781/2. -/
theorem C7_adapter_returns_price_witness :
    2 * F64.sunits false 1039 161800007974912 = 135781 * 2 ^ 1074 ∧
    fetchBitfinexPrice (.ok [F64.zero, F64.zero, F64.zero, F64.zero, F64.zero, F64.zero,
      price67890_5, F64.zero, F64.zero, F64.zero]) = .ok (price67890_5, none) ∧
    fetchCoinbasePrice (.ok ⟨"67890.50"⟩) = (price67890_5, none) ∧
    fetchKrakenPrice (.ok ⟨⟨⟨["67890.5", "1", "1.0"]⟩⟩⟩) = (price67890_5, none) :=
  ⟨by decide!,
    (C7_adapter_returns_price price67890_5 (by decide!)).1 _ rfl,
    (C7_adapter_returns_price price67890_5 (by decide!)).2.2.2.2.1 "67890.50" (by decide!),
    (C7_adapter_returns_price price67890_5 (by decide!)).2.2.2.2.2.2.2.2.1 "67890.5" ["1", "1.0"]
      (by decide!)⟩

/-! ## `validatePrice`: C5 -/

/-- C5, as the code has it.  `validatePrice` returns nil exactly for a
`float64` for which `val <= 0` is false: a positive finite value, `+Inf`, or
NaN.  It returns the invalid-value error for every `float64` that is `<= 0`
and the invalid-type error for every value that is not a `float64`. -/
theorem C5_validatePrice_accepts_iff (name : String) (price : Interface) :
    (validatePrice name price = none ↔
      ∃ v : F64, price = .float64 v ∧
        (v.isPositiveFinite = true ∨ v = F64.inf false ∨ v = F64.nan)) ∧
    (∀ v : F64, price = .float64 v → F64.le v F64.zero = true →
      validatePrice name price = some (.invalidValue name v)) ∧
    ((∀ v : F64, price ≠ .float64 v) →
      validatePrice name price = some (.invalidType name price)) := by
  refine ⟨?_, ?_, ?_⟩
  · cases price with
    | float64 v =>
      constructor
      · intro h
        refine ⟨v, rfl, (le_zero_eq_false_iff v).mp ?_⟩
        cases hle : F64.le v F64.zero with
        | false => rfl
        | true => rw [validatePrice_of_le name v hle] at h; exact absurd h (by simp)
      · rintro ⟨w, hw, h⟩
        cases hw
        exact validatePrice_of_not_le name v ((le_zero_eq_false_iff v).mpr h)
    | string x => simp [validatePrice]
    | int x => simp [validatePrice]
    | nil => simp [validatePrice]
  · intro v hv hle
    subst hv
    exact validatePrice_of_le name v hle
  · intro h
    cases price with
    | float64 v => exact absurd rfl (h v)
    | string x => rfl
    | int x => rfl
    | nil => rfl

/-- C5 as stated fails: NaN and `+Inf` are not finite positive numbers, and
`validatePrice` returns nil for both. -/
theorem C5_counterexample :
    validatePrice "Coinbase" (.float64 F64.nan) = none ∧
    F64.isPositiveFinite F64.nan = false ∧
    validatePrice "Coinbase" (.float64 (F64.inf false)) = none ∧
    F64.isPositiveFinite (F64.inf false) = false := by
  decide

/-! ## The published value is never zero when every counted price was validated -/

/-- A cycle in which at least one adapter succeeded, and every price it counted
had passed `val <= 0` (as `validatePrice` tests it), does not publish a zero:
in particular not the initial `avgPrice`.  The count is below `2^53`. -/
theorem cycle_not_zero_of_validated (avgPrice : F64) (quotes : List Quote)
    (hsome : successes quotes ≠ [])
    (hcount : (successes quotes).length < 9007199254740992)
    (hvalid : ∀ p ∈ successes quotes, F64.le p F64.zero = false) :
    (cycle avgPrice quotes).isZero = false ∧ cycle avgPrice quotes ≠ initialAvgPrice := by
  have hlen : (successes quotes).length > 0 := List.length_pos.mpr hsome
  have hz : (cycle avgPrice quotes).isZero = false := by
    rw [cycle_eq, if_pos hlen]
    apply F64.div_ofNat_isZero _ _ hlen hcount
    have := F64.foldl_add_atLeast (successes quotes) 0 F64.zero (by omega)
      (Or.inr (Or.inr ⟨0, 0, rfl, Nat.zero_le _⟩))
      (fun p hp => F64.atLeast_one_of_not_le p (hvalid p hp))
    rw [Nat.zero_add] at this
    exact this
  refine ⟨hz, ?_⟩
  intro h
  rw [h] at hz
  exact absurd hz (by decide)

/-! ## An adapter that succeeds has validated its price (all but XT) -/

theorem le_zero_of_validatePrice (name : String) (p : F64)
    (h : validatePrice name (.float64 p) = none) : F64.le p F64.zero = false := by
  cases hle : F64.le p F64.zero with
  | false => rfl
  | true => rw [validatePrice_of_le name p hle] at h; exact absurd h (by simp)

theorem fetchBitfinexPrice_validated (got : Fetched (List F64)) (q : Quote)
    (h : fetchBitfinexPrice got = .ok q) (hq : q.2 = none) : F64.le q.1 F64.zero = false := by
  obtain ⟨p, e⟩ := q
  simp only at hq
  subst hq
  cases got with
  | error err => simp [fetchBitfinexPrice] at h
  | ok resp =>
    by_cases hlen : resp.length = 0
    · simp [fetchBitfinexPrice, hlen] at h
    · cases h6 : resp[6]? with
      | none => simp [fetchBitfinexPrice, hlen, h6] at h
      | some v =>
        cases hv : validatePrice "Bitfinex" (.float64 v) with
        | some e2 => simp [fetchBitfinexPrice, hlen, h6, hv] at h
        | none =>
          simp [fetchBitfinexPrice, hlen, h6, hv] at h
          rw [← h]
          exact le_zero_of_validatePrice _ _ hv

theorem fetchBitgetPrice_validated (got : Fetched fetchBitgetPrice.ApiResponse) (p : F64)
    (h : fetchBitgetPrice got = (p, none)) : F64.le p F64.zero = false := by
  cases got with
  | error err => simp [fetchBitgetPrice] at h
  | ok resp =>
    obtain ⟨data⟩ := resp
    cases data with
    | nil => simp [fetchBitgetPrice] at h
    | cons first rest =>
      by_cases hs : first.LastPr = ""
      · simp [fetchBitgetPrice, hs] at h
      · cases hpf : strconv.ParseFloat (first.LastPr) with
        | mk v e =>
          cases e with
          | some err => simp [fetchBitgetPrice, hs, hpf] at h
          | none =>
            cases hv : validatePrice "Bitget" (.float64 v) with
            | some e2 => simp [fetchBitgetPrice, hs, hpf, hv] at h
            | none =>
              simp [fetchBitgetPrice, hs, hpf, hv] at h
              rw [← h]
              exact le_zero_of_validatePrice _ _ hv

theorem fetchCryptoPrice_validated (got : Fetched fetchCryptoPrice.ApiResponse) (p : F64)
    (h : fetchCryptoPrice got = (p, none)) : F64.le p F64.zero = false := by
  cases got with
  | error err => simp [fetchCryptoPrice] at h
  | ok resp =>
    obtain ⟨⟨data⟩⟩ := resp
    cases data with
    | nil => simp [fetchCryptoPrice] at h
    | cons first rest =>
      by_cases hs : first.A = ""
      · simp [fetchCryptoPrice, hs] at h
      · cases hpf : strconv.ParseFloat (first.A) with
        | mk v e =>
          cases e with
          | some err => simp [fetchCryptoPrice, hs, hpf] at h
          | none =>
            cases hv : validatePrice "Crypto" (.float64 v) with
            | some e2 => simp [fetchCryptoPrice, hs, hpf, hv] at h
            | none =>
              simp [fetchCryptoPrice, hs, hpf, hv] at h
              rw [← h]
              exact le_zero_of_validatePrice _ _ hv

theorem fetchKrakenPrice_validated (got : Fetched fetchKrakenPrice.ApiResponse) (p : F64)
    (h : fetchKrakenPrice got = (p, none)) : F64.le p F64.zero = false := by
  cases got with
  | error err => simp [fetchKrakenPrice] at h
  | ok resp =>
    obtain ⟨⟨⟨data⟩⟩⟩ := resp
    cases data with
    | nil => simp [fetchKrakenPrice] at h
    | cons first rest =>
      by_cases hs : first = ""
      · simp [fetchKrakenPrice, hs] at h
      · cases hpf : strconv.ParseFloat (first) with
        | mk v e =>
          cases e with
          | some err => simp [fetchKrakenPrice, hs, hpf] at h
          | none =>
            cases hv : validatePrice "Kraken" (.float64 v) with
            | some e2 => simp [fetchKrakenPrice, hs, hpf, hv] at h
            | none =>
              simp [fetchKrakenPrice, hs, hpf, hv] at h
              rw [← h]
              exact le_zero_of_validatePrice _ _ hv

theorem fetchOKXPrice_validated (got : Fetched fetchOKXPrice.ApiResponse) (p : F64)
    (h : fetchOKXPrice got = (p, none)) : F64.le p F64.zero = false := by
  cases got with
  | error err => simp [fetchOKXPrice] at h
  | ok resp =>
    obtain ⟨data⟩ := resp
    cases data with
    | nil => simp [fetchOKXPrice] at h
    | cons first rest =>
      by_cases hs : first.Last = ""
      · simp [fetchOKXPrice, hs] at h
      · cases hpf : strconv.ParseFloat (first.Last) with
        | mk v e =>
          cases e with
          | some err => simp [fetchOKXPrice, hs, hpf] at h
          | none =>
            cases hv : validatePrice "OKX" (.float64 v) with
            | some e2 => simp [fetchOKXPrice, hs, hpf, hv] at h
            | none =>
              simp [fetchOKXPrice, hs, hpf, hv] at h
              rw [← h]
              exact le_zero_of_validatePrice _ _ hv

theorem fetchBitruePrice_validated (got : Fetched fetchBitruePrice.ApiResponse) (p : F64)
    (h : fetchBitruePrice got = (p, none)) : F64.le p F64.zero = false := by
  cases got with
  | error err => simp [fetchBitruePrice] at h
  | ok resp =>
    obtain ⟨str⟩ := resp
    by_cases hs : str = ""
    · simp [fetchBitruePrice, hs, string_length_eq_zero] at h
    · cases hpf : strconv.ParseFloat str with
      | mk v e =>
        cases e with
        | some err => simp [fetchBitruePrice, hs, hpf, string_length_eq_zero] at h
        | none =>
          cases hv : validatePrice "Bitrue" (.float64 v) with
          | some e2 => simp [fetchBitruePrice, hs, hpf, hv, string_length_eq_zero] at h
          | none =>
            simp [fetchBitruePrice, hs, hpf, hv, string_length_eq_zero] at h
            rw [← h]
            exact le_zero_of_validatePrice _ _ hv

theorem fetchCoinbasePrice_validated (got : Fetched fetchCoinbasePrice.ApiResponse) (p : F64)
    (h : fetchCoinbasePrice got = (p, none)) : F64.le p F64.zero = false := by
  cases got with
  | error err => simp [fetchCoinbasePrice] at h
  | ok resp =>
    obtain ⟨str⟩ := resp
    by_cases hs : str = ""
    · simp [fetchCoinbasePrice, hs, string_length_eq_zero] at h
    · cases hpf : strconv.ParseFloat str with
      | mk v e =>
        cases e with
        | some err => simp [fetchCoinbasePrice, hs, hpf, string_length_eq_zero] at h
        | none =>
          cases hv : validatePrice "Coinbase" (.float64 v) with
          | some e2 => simp [fetchCoinbasePrice, hs, hpf, hv, string_length_eq_zero] at h
          | none =>
            simp [fetchCoinbasePrice, hs, hpf, hv, string_length_eq_zero] at h
            rw [← h]
            exact le_zero_of_validatePrice _ _ hv

theorem fetchGatePrice_validated (got : Fetched fetchGatePrice.ApiResponse) (p : F64)
    (h : fetchGatePrice got = (p, none)) : F64.le p F64.zero = false := by
  cases got with
  | error err => simp [fetchGatePrice] at h
  | ok resp =>
    obtain ⟨str⟩ := resp
    by_cases hs : str = ""
    · simp [fetchGatePrice, hs, string_length_eq_zero] at h
    · cases hpf : strconv.ParseFloat str with
      | mk v e =>
        cases e with
        | some err => simp [fetchGatePrice, hs, hpf, string_length_eq_zero] at h
        | none =>
          cases hv : validatePrice "Gate" (.float64 v) with
          | some e2 => simp [fetchGatePrice, hs, hpf, hv, string_length_eq_zero] at h
          | none =>
            simp [fetchGatePrice, hs, hpf, hv, string_length_eq_zero] at h
            rw [← h]
            exact le_zero_of_validatePrice _ _ hv

theorem fetchKuCoinPrice_validated (got : Fetched fetchKuCoinPrice.ApiResponse) (p : F64)
    (h : fetchKuCoinPrice got = (p, none)) : F64.le p F64.zero = false := by
  cases got with
  | error err => simp [fetchKuCoinPrice] at h
  | ok resp =>
    obtain ⟨⟨str⟩⟩ := resp
    by_cases hs : str = ""
    · simp [fetchKuCoinPrice, hs, string_length_eq_zero] at h
    · cases hpf : strconv.ParseFloat str with
      | mk v e =>
        cases e with
        | some err => simp [fetchKuCoinPrice, hs, hpf, string_length_eq_zero] at h
        | none =>
          cases hv : validatePrice "KuCoin" (.float64 v) with
          | some e2 => simp [fetchKuCoinPrice, hs, hpf, hv, string_length_eq_zero] at h
          | none =>
            simp [fetchKuCoinPrice, hs, hpf, hv, string_length_eq_zero] at h
            rw [← h]
            exact le_zero_of_validatePrice _ _ hv

theorem fetchBTSEPrice_validated (got : Fetched (List fetchBTSEPrice.ApiResponse)) (p : F64)
    (h : fetchBTSEPrice got = (p, none)) : F64.le p F64.zero = false := by
  cases got with
  | error err => simp [fetchBTSEPrice] at h
  | ok resp =>
    cases resp with
    | nil => simp [fetchBTSEPrice] at h
    | cons first rest =>
      cases hv : validatePrice "BTSE" (.float64 first.LastPrice) with
      | some e2 => simp [fetchBTSEPrice, hv] at h
      | none =>
        simp [fetchBTSEPrice, hv] at h
        rw [← h]
        exact le_zero_of_validatePrice _ _ hv

theorem fetchHuobiPrice_validated (got : Fetched fetchHuobiPrice.ApiResponse) (p : F64)
    (h : fetchHuobiPrice got = (p, none)) : F64.le p F64.zero = false := by
  cases got with
  | error err => simp [fetchHuobiPrice] at h
  | ok resp =>
    obtain ⟨⟨data⟩⟩ := resp
    cases data with
    | nil => simp [fetchHuobiPrice] at h
    | cons first rest =>
      cases hv : validatePrice "Huobi" (.float64 first.Price) with
      | some e2 => simp [fetchHuobiPrice, hv] at h
      | none =>
        simp [fetchHuobiPrice, hv] at h
        rw [← h]
        exact le_zero_of_validatePrice _ _ hv

theorem mem_successes (p : F64) (quotes : List Quote) :
    p ∈ successes quotes ↔ (p, none) ∈ quotes := by
  unfold successes
  simp only [List.mem_map, List.mem_filter, Prod.exists]
  constructor
  · rintro ⟨a, b, ⟨hm, hn⟩, rfl⟩
    cases b with
    | none => exact hm
    | some e => simp at hn
  · intro h
    exact ⟨p, none, ⟨h, rfl⟩, rfl⟩

theorem successes_length_le (quotes : List Quote) :
    (successes quotes).length ≤ quotes.length := by
  unfold successes
  rw [List.length_map]
  exact List.length_filter_le _ _

/-- In a cycle of `main` in which at least one adapter succeeds and XT does
not return a price that fails `val <= 0` unchecked, the published value is not
a zero: a successful cycle then never publishes the initial `avgPrice`. -/
theorem mainCycle_not_zero_of_xt_validated (avgPrice : F64) (r : Responses)
    (quotes : List Quote) (hf : fetchAll r = .ok quotes) (hsome : successes quotes ≠ [])
    (hxt : (fetchXTPrice r.xt).2 = none → F64.le (fetchXTPrice r.xt).1 F64.zero = false) :
    mainCycle avgPrice r = .ok (cycle avgPrice quotes) ∧
      (cycle avgPrice quotes).isZero = false ∧ cycle avgPrice quotes ≠ initialAvgPrice := by
  refine ⟨mainCycle_of_fetchAll avgPrice r quotes hf, ?_⟩
  unfold fetchAll at hf
  cases hb : fetchBitfinexPrice r.bitfinex with
  | error e => rw [hb] at hf; exact absurd hf (by simp)
  | ok b =>
    rw [hb] at hf
    simp only [Except.ok.injEq] at hf
    have hlen : quotes.length = 12 := by rw [← hf]; rfl
    apply cycle_not_zero_of_validated avgPrice quotes hsome
    · have := successes_length_le quotes
      omega
    · intro p hp
      rw [mem_successes, ← hf] at hp
      simp only [List.mem_cons, List.mem_singleton, List.not_mem_nil, or_false] at hp
      rcases hp with h | h | h | h | h | h | h | h | h | h | h | h
      · have hv := fetchBitfinexPrice_validated r.bitfinex b hb (by rw [← h])
        rw [← h] at hv
        exact hv
      · exact fetchBitgetPrice_validated _ _ h.symm
      · exact fetchBitruePrice_validated _ _ h.symm
      · exact fetchBTSEPrice_validated _ _ h.symm
      · exact fetchCoinbasePrice_validated _ _ h.symm
      · exact fetchCryptoPrice_validated _ _ h.symm
      · exact fetchGatePrice_validated _ _ h.symm
      · exact fetchHuobiPrice_validated _ _ h.symm
      · exact fetchKrakenPrice_validated _ _ h.symm
      · exact fetchKuCoinPrice_validated _ _ h.symm
      · exact fetchOKXPrice_validated _ _ h.symm
      · have h2 : (fetchXTPrice r.xt).2 = none := by rw [← h]
        have := hxt h2
        rw [← h] at this
        exact this

/-! ## Successive cycles -/

theorem runCycles_append (avgPrice : F64) (rs rs' : List Responses) :
    runCycles avgPrice (rs ++ rs') =
      match runCycles avgPrice rs with
      | .error p => .error p
      | .ok avg => runCycles avg rs' := by
  induction rs generalizing avgPrice with
  | nil => rfl
  | cons r rs ih =>
    simp only [List.cons_append, runCycles]
    cases mainCycle avgPrice r with
    | error p => rfl
    | ok avg => exact ih avg

/-- Cycles in which every adapter fails leave `avgPrice` as it is. -/
theorem runCycles_all_failed (avgPrice : F64) (rs : List Responses)
    (h : ∀ r ∈ rs, ∃ quotes, fetchAll r = .ok quotes ∧ ∀ q ∈ quotes, q.2 ≠ none) :
    runCycles avgPrice rs = .ok avgPrice := by
  induction rs with
  | nil => rfl
  | cons r rs ih =>
    obtain ⟨quotes, hf, hq⟩ := h r (List.mem_cons_self _ _)
    have hc : cycle avgPrice quotes = avgPrice := by
      rw [cycle_eq, successes_eq_nil quotes hq]
      simp
    simp only [runCycles, mainCycle_of_fetchAll avgPrice r quotes hf, hc]
    exact ih (fun r' hr' => h r' (List.mem_cons_of_mem _ hr'))

/-- After any run of cycles that does not panic, `avgPrice` is what the most
recent successful cycle published: the `float64` mean of its successful prices,
whatever cycles came before it and however many failed cycles came after.  The
read handler returns that value when it is finite. -/
theorem runCycles_last_success (avgPrice before : F64) (earlier later : List Responses)
    (r : Responses) (quotes : List Quote)
    (hearlier : runCycles avgPrice earlier = .ok before)
    (hf : fetchAll r = .ok quotes) (hsome : successes quotes ≠ [])
    (hlater : ∀ r' ∈ later, ∃ qs, fetchAll r' = .ok qs ∧ ∀ q ∈ qs, q.2 ≠ none) :
    runCycles avgPrice (earlier ++ r :: later) =
      .ok (sumPrices (successes quotes) / F64.ofNat (successes quotes).length) ∧
    ((sumPrices (successes quotes) / F64.ofNat (successes quotes).length).isFinite = true →
      (runCycles avgPrice (earlier ++ r :: later)).map readHandler =
        .ok (.ok (sumPrices (successes quotes) / F64.ofNat (successes quotes).length))) := by
  have hlen : (successes quotes).length > 0 := List.length_pos.mpr hsome
  have hrun : runCycles avgPrice (earlier ++ r :: later) =
      .ok (sumPrices (successes quotes) / F64.ofNat (successes quotes).length) := by
    rw [runCycles_append, hearlier]
    simp only [runCycles, mainCycle_of_fetchAll before r quotes hf]
    rw [runCycles_all_failed _ later hlater, cycle_eq, if_pos hlen]
  refine ⟨hrun, ?_⟩
  intro hfin
  rw [hrun]
  simp [Except.map, readHandler, hfin]

/-! ## The published value: C8, C9 -/

/-- C8 fails on the code.  In a cycle in which only XT answers, with
`{"result":[{"c":"0"}]}`, the XT adapter returns 0 with a nil error (its
`validatePrice` result is dropped), so the cycle succeeds with `count = 1` and
publishes `0 / 1 = 0.0`, the initial `avgPrice`: after it the read handler
returns the same value as before any cycle, also when a real average had been
published before. -/
theorem C8_successful_cycle_publishes_initial_value :
    fetchXTPrice (onlyXT "0").xt = (F64.zero, none) ∧
    (fetchAll (onlyXT "0")).map (fun quotes => (runLoop quotes).2) = .ok 1 ∧
    (runCycles initialAvgPrice [onlyXT "0"]).map readHandler = .ok (.ok initialAvgPrice) ∧
    (runCycles initialAvgPrice [onlyXT "67890.5", onlyXT "0"]).map readHandler
      = .ok (.ok initialAvgPrice) ∧
    (runCycles initialAvgPrice [onlyXT "67890.5"]).map readHandler
      = .ok (.ok price67890_5) := by
  decide!

/-- C9 as stated fails: the three successful prices 1e16, 1, 1 give
`((0.0 + 1e16) + 1) + 1 = 1e16` and the average 3333333333333333.5, while
the same prices in the order 1, 1, 1e16 give `((0.0 + 1) + 1) + 1e16 =
10000000000000002` and the average 3333333333333334. -/
theorem C9_counterexample :
    List.Perm [(price1e16, (none : Option Error)), (price1, none), (price1, none)]
      [(price1, none), (price1, none), (price1e16, none)] ∧
    runLoop [(price1e16, none), (price1, none), (price1, none)] = (price1e16, 3) ∧
    runLoop [(price1, none), (price1, none), (price1e16, none)]
      = (F64.fin false 1076 496400372629505, 3) ∧
    cycle F64.zero [(price1e16, none), (price1, none), (price1, none)]
      = F64.fin false 1074 2163067039296171 ∧
    cycle F64.zero [(price1, none), (price1, none), (price1e16, none)]
      = F64.fin false 1074 2163067039296172 ∧
    cycle F64.zero [(price1e16, none), (price1, none), (price1, none)] ≠
      cycle F64.zero [(price1, none), (price1, none), (price1e16, none)] :=
  ⟨List.Perm.trans (List.Perm.swap _ _ _) (List.Perm.cons _ (List.Perm.swap _ _ _)),
    by decide!, by decide!, by decide!, by decide!, by decide!⟩

/-- The loop's sum does not depend on the order of at most two prices. -/
theorem sumPrices_perm_of_length_le_two (l₁ l₂ : List F64) (h : l₁.Perm l₂)
    (hlen : l₁.length ≤ 2) : sumPrices l₁ = sumPrices l₂ := by
  induction h with
  | nil => rfl
  | @cons x m₁ m₂ hp _ =>
    have hle : m₁.length ≤ 1 := by
      simp only [List.length_cons] at hlen
      omega
    have heq : m₁ = m₂ := by
      match m₁, hp, hle with
      | [], hp, _ => exact hp.nil_eq
      | [a], hp, _ => exact List.singleton_perm.mp hp
    rw [heq]
  | swap x y l =>
    have hl : l = [] := by
      apply List.length_eq_zero.mp
      simp only [List.length_cons] at hlen
      omega
    subst hl
    simp only [sumPrices, List.foldl_cons, List.foldl_nil, F64.add_def]
    exact F64.add_zero_add_comm y x
  | trans h₁ _ ih₁ ih₂ =>
    rw [ih₁ hlen, ih₂ (by rw [← h₁.length_eq]; exact hlen)]

theorem exactlySummable_perm (l₁ l₂ : List F64) (h : l₁.Perm l₂)
    (hx : ExactlySummable l₁) : ExactlySummable l₂ := by
  obtain ⟨e, he, hgrid, hsum⟩ := hx
  refine ⟨e, he, fun p hp => hgrid p (h.mem_iff.mpr hp), ?_⟩
  rw [← (h.map F64.unitsOf).sum_eq]
  exact hsum

theorem successes_perm (quotes permuted : List Quote) (h : quotes.Perm permuted) :
    (successes quotes).Perm (successes permuted) :=
  (h.filter _).map _

/-- C9, as the code has it.  Running the loop over a permutation of the
adapter results counts the same successes and sums the same prices, in
another order.  It publishes the same average when at most two adapters
succeeded (`float64` addition is commutative), and when the successful prices lie
on one binary grid and add up to less than `2^53` of its steps (then every
addition is exact).  In general each addition rounds and the average depends
on the order. -/
theorem C9_order_independent_when_exact (avgPrice : F64) (quotes permuted : List Quote)
    (hperm : quotes.Perm permuted) :
    (runLoop permuted).2 = (runLoop quotes).2 ∧
    (successes permuted).Perm (successes quotes) ∧
    ((successes quotes).length ≤ 2 → cycle avgPrice permuted = cycle avgPrice quotes) ∧
    (ExactlySummable (successes quotes) →
      cycle avgPrice permuted = cycle avgPrice quotes) := by
  have hs := successes_perm quotes permuted hperm
  have hlen : (successes permuted).length = (successes quotes).length := hs.length_eq.symm
  refine ⟨?_, hs.symm, ?_, ?_⟩
  · rw [runLoop_eq, runLoop_eq]
    exact hlen
  · intro h2
    rw [cycle_eq, cycle_eq, hlen, sumPrices_perm_of_length_le_two _ _ hs h2]
  · intro hx
    rw [cycle_eq, cycle_eq, hlen, F64.sumPrices_exact _ hx,
      F64.sumPrices_exact _ (exactlySummable_perm _ _ hs hx), (hs.map F64.unitsOf).sum_eq]

/-- C9 at a concrete cycle: 67890.5, a failure and 67891.5, and the same
results in the opposite order.  The prices are whole multiples of 0.5 (of
`2^1073` units), so both orders publish 67891. -/
theorem C9_order_independent_when_exact_witness :
    ExactlySummable (successes [(price67890_5, none),
      (F64.zero, some (Error.accessField "Bitget")), (price67891_5, none)]) ∧
    cycle F64.zero [(price67891_5, none), (F64.zero, some (Error.accessField "Bitget")),
        (price67890_5, none)] =
      cycle F64.zero [(price67890_5, none), (F64.zero, some (Error.accessField "Bitget")),
        (price67891_5, none)] ∧
    cycle F64.zero [(price67890_5, none), (F64.zero, some (Error.accessField "Bitget")),
        (price67891_5, none)] = F64.fin false 1039 161834367713280 :=
  have hx : ExactlySummable (successes [(price67890_5, none),
      (F64.zero, some (Error.accessField "Bitget")), (price67891_5, none)]) :=
    ⟨1073, by decide, by
      intro p hp
      have hp2 : p = price67890_5 ∨ p = price67891_5 := by
        simpa [successes] using hp
      rcases hp2 with h | h
      · exact ⟨1039, 161800007974912, h, by decide!⟩
      · exact ⟨1039, 161868727451648, h, by decide!⟩,
      by decide!⟩
  ⟨hx,
    (C9_order_independent_when_exact F64.zero
      [(price67890_5, none), (F64.zero, some (Error.accessField "Bitget")),
        (price67891_5, none)]
      [(price67891_5, none), (F64.zero, some (Error.accessField "Bitget")),
        (price67890_5, none)]
      (List.Perm.trans (List.Perm.swap _ _ _)
        (List.Perm.trans (List.Perm.cons _ (List.Perm.swap _ _ _))
          (List.Perm.swap _ _ _)))).2.2.2 hx,
    by decide!⟩

end Tink
